import Mathlib

/-!
NexaVim: a shallow embedding of `src/nexavim.cpp`

The editor is the C++ class `NexaVim`.  Its private fields become the fields of
the structure `NexaVim` below and its member functions become functions on that
structure.

Modelling conventions.

* `int` fields are `Int`.  Signed overflow is undefined in C++, so the model
  describes the executions in which the sums and differences of cursor and
  scroll positions do not overflow (buffer sizes far below `2^31`).  The one
  product of the program, in the scrollbar computation, does overflow on large
  files and tall terminals; it is taken modulo `2^32` (`wrapInt`).
* `std::string` is `List Char`, `std::vector<string>` is `List (List Char)`.
* A member function that indexes the buffer returns `Option`: `none` stands for
  an out-of-range `operator[]`, an `std::out_of_range` thrown by
  `erase`/`insert`/`substr`, or a violated precondition of `std::clamp`.
* `read(STDIN_FILENO, &c, 1)` takes its outcome from a list of read outcomes:
  `some c` is a byte, `none` is a read that returned no byte (time-out); an
  exhausted list reads as a time-out.
* `handleInputs` is a sequence of `handleInput` calls while `running` holds;
  `run` is the loop of the source, a rendering step before each call.  Of the
  frame that rendering builds, the scroll rule and the scrollbar column are
  modelled; the decorative background of the home screen is not.
-/

/-- The enumeration `EditorMode` of the source. -/
inductive EditorMode where
  | USER_FRIENDLY
  | VIM_NORMAL
  | VIM_INSERT
  | HOME
  | SETTINGS
  deriving DecidableEq, Repr

/-- The class `NexaVim`: its data members that the input and scroll logic reads
or writes.  `written` is not a member of the class: it records the files that
`saveFile` wrote (name and content), oldest first. -/
structure NexaVim where
  buffer : List (List Char)
  filename : List Char
  cursorX : Int
  cursorY : Int
  rowOffset : Int
  screenRows : Int
  screenCols : Int
  homeSelection : Int
  settingsSelection : Int
  mode : EditorMode
  running : Bool
  autoCompletion : Bool
  errorChecking : Bool
  written : List (List Char × List Char)
  deriving DecidableEq, Repr

/-- What the terminal and the file system supply besides key bytes: `answer` is
the line typed at the "Enter filename to save" prompt of `saveFile`, `junk` is
the value found in a local `char` that a failed `read` left unassigned, and
`canOpen` tells whether the `ofstream` of `saveFile` opens its file (the source
never tests the stream: on a stream that failed to open its writes do nothing). -/
structure Env where
  answer : List Char
  junk : Char
  canOpen : Bool
  deriving DecidableEq, Repr

namespace NexaVim

/-- The byte `0x1B`. -/
def ESC : Char := Char.ofNat 27

/-- The byte 127 (DEL), one of the two backspace bytes. -/
def DEL : Char := Char.ofNat 127

/-- The byte 8 (BS), the other backspace byte. -/
def BS : Char := Char.ofNat 8

/-- The byte 13 (carriage return), the Enter key in raw mode. -/
def CR : Char := Char.ofNat 13

/-- The function `isprint` of the C library in the "C" locale (the program never
calls `setlocale`): the bytes `0x20 .. 0x7E`. -/
def isprint (c : Char) : Bool := decide (32 ≤ c.toNat) && decide (c.toNat ≤ 126)

/-- The function `std::clamp(v, lo, hi)`, for `lo ≤ hi`. -/
def clamp (v lo hi : Int) : Int := if v < lo then lo else if hi < v then hi else v

/-- The expression `buffer[i]` for an `int` index `i`: defined when
`0 ≤ i < buffer.size()`. -/
def lineAt (buf : List (List Char)) (i : Int) : Option (List Char) :=
  if 0 ≤ i then buf[i.toNat]? else none

/-- The call `str.erase(pos, 1)`: throws when `pos > str.size()` (a negative
`int` converts to a huge `size_t`); erases nothing when `pos = str.size()`. -/
def strErase (str : List Char) (pos : Int) : Option (List Char) :=
  if 0 ≤ pos ∧ pos ≤ str.length then some (str.take pos.toNat ++ str.drop (pos.toNat + 1))
  else none

/-- The call `str.insert(pos, 1, c)`: throws when `pos > str.size()`. -/
def strInsert (str : List Char) (pos : Int) (c : Char) : Option (List Char) :=
  if 0 ≤ pos ∧ pos ≤ str.length then some (str.take pos.toNat ++ c :: str.drop pos.toNat)
  else none

/-- The call `str.substr(pos)`: throws when `pos > str.size()`. -/
def substr (str : List Char) (pos : Int) : Option (List Char) :=
  if 0 ≤ pos ∧ pos ≤ str.length then some (str.drop pos.toNat) else none

/-- The call `str.substr(0, n)`: the first `n` characters, the whole string when
`n` exceeds its size (as a negative `int` does once converted to `size_t`). -/
def substrTo (str : List Char) (n : Int) : List Char :=
  if 0 ≤ n then str.take n.toNat else str

/-- The call `buffer.erase(buffer.begin() + i)`. -/
def vecErase (buf : List (List Char)) (i : Nat) : List (List Char) :=
  buf.take i ++ buf.drop (i + 1)

/-- The call `buffer.insert(buffer.begin() + i, x)`: defined when
`0 ≤ i ≤ buffer.size()`. -/
def vecInsert (buf : List (List Char)) (i : Int) (x : List Char) : Option (List (List Char)) :=
  if 0 ≤ i ∧ i ≤ buf.length then some (buf.take i.toNat ++ x :: buf.drop i.toNat) else none

/-- The member function `moveCursor(dx, dy)`.  With an empty buffer the upper
bound of the first `clamp` is `-1`, below its lower bound, and `buffer[cursorY]`
has no element to refer to: `none`. -/
def moveCursor (s : NexaVim) (dx dy : Int) : Option NexaVim :=
  let hi : Int := (s.buffer.length : Int) - 1
  if hi < 0 then none
  else
    let y := clamp (s.cursorY + dy) 0 hi
    match lineAt s.buffer y with
    | none => none
    | some line => some { s with cursorY := y, cursorX := clamp (s.cursorX + dx) 0 line.length }

/-- The member function `handleText(c)`. -/
def handleText (s : NexaVim) (c : Char) : Option NexaVim :=
  if c = DEL ∨ c = BS then
    if s.cursorX > 0 then
      match lineAt s.buffer s.cursorY with
      | none => none
      | some line =>
        match strErase line (s.cursorX - 1) with
        | none => none
        | some line1 =>
          some { s with buffer := s.buffer.set s.cursorY.toNat line1, cursorX := s.cursorX - 1 }
    else if s.cursorY > 0 then
      match lineAt s.buffer (s.cursorY - 1), lineAt s.buffer s.cursorY with
      | some prev, some cur =>
        some { s with
          cursorX := prev.length
          buffer := vecErase (s.buffer.set (s.cursorY - 1).toNat (prev ++ cur)) s.cursorY.toNat
          cursorY := s.cursorY - 1 }
      | _, _ => none
    else some s
  else if c = CR then
    match lineAt s.buffer s.cursorY with
    | none => none
    | some line =>
      match substr line s.cursorX with
      | none => none
      | some contentToMove =>
        match vecInsert (s.buffer.set s.cursorY.toNat (substrTo line s.cursorX))
            (s.cursorY + 1) contentToMove with
        | none => none
        | some buf => some { s with buffer := buf, cursorY := s.cursorY + 1, cursorX := 0 }
  else if isprint c then
    match lineAt s.buffer s.cursorY with
    | none => none
    | some line =>
      match strInsert line s.cursorX c with
      | none => none
      | some line1 =>
        let x1 := s.cursorX + 1
        let line2 :=
          if s.autoCompletion then
            if c = '(' then strInsert line1 x1 ')'
            else if c = '{' then strInsert line1 x1 '}'
            else if c = '[' then strInsert line1 x1 ']'
            else if c = '"' then strInsert line1 x1 '"'
            else some line1
          else some line1
        match line2 with
        | none => none
        | some line3 => some { s with buffer := s.buffer.set s.cursorY.toNat line3, cursorX := x1 }
  else some s

/-- The text that `saveFile` sends to its stream: every line of the buffer
followed by a newline. -/
def fileText (buf : List (List Char)) : List Char :=
  (buf.map (fun line => line ++ [Char.ofNat 10])).flatten

/-- The member function `saveFile`.  The prompt is shown when no file name is
known and `getline` stores the typed line; when a file name is then known an
`ofstream` is opened on it and the buffer is sent to it, one line per output
line, which writes the file when the stream did open. -/
def saveFile (env : Env) (s : NexaVim) : NexaVim :=
  let s1 := if s.filename = [] then { s with filename := env.answer } else s
  if s1.filename ≠ [] then
    if env.canOpen then
      { s1 with written := s1.written ++ [(s1.filename, fileText s1.buffer)] }
    else s1
  else s1

/-- The member function `showHelp`: it prints the help text and waits for a key
outside raw mode; no data member modelled here changes. -/
def showHelp (s : NexaVim) : NexaVim := s

/-- The effect of the member function `renderEditor` on the editor: its first two
statements, the scroll rule (the rest of the function only appends to the
frame). -/
def renderEditor (s : NexaVim) : NexaVim :=
  let s1 := if s.cursorY ≥ s.rowOffset + s.screenRows - 2 then
      { s with rowOffset := s.cursorY - s.screenRows + 3 } else s
  if s1.cursorY < s1.rowOffset then { s1 with rowOffset := s1.cursorY } else s1

/-- One call `read(STDIN_FILENO, &c, 1)`: the outcome and the outcomes left. -/
def read (inp : List (Option Char)) : Option Char × List (Option Char) :=
  match inp with
  | [] => (none, [])
  | r :: rest => (r, rest)

/-- The end of `handleInput`, after the toggle and escape handling (the
statements from `if (c == 'X' && ...)` on): the discard key, then the routing
of the byte `c` by mode.  No further byte is read there. -/
def handleKey (s : NexaVim) (c : Char) : Option NexaVim :=
  if c = 'X' ∧ (s.mode = EditorMode.USER_FRIENDLY ∨ s.mode = EditorMode.VIM_NORMAL) then
    some { s with running := false }
  else if s.mode = EditorMode.USER_FRIENDLY ∨ s.mode = EditorMode.VIM_INSERT then
    handleText s c
  else if s.mode = EditorMode.VIM_NORMAL then
    if c = 'i' then some { s with mode := EditorMode.VIM_INSERT }
    else if c = 'h' then moveCursor s (-1) 0
    else if c = 'j' then moveCursor s 0 1
    else if c = 'k' then moveCursor s 0 (-1)
    else if c = 'l' then moveCursor s 1 0
    else some s
  else some s

/-- The member function `handleInput`: the editor after the call and the read
outcomes it has not consumed. -/
def handleInput (env : Env) (s : NexaVim) (inp : List (Option Char)) :
    Option (NexaVim × List (Option Char)) :=
  match read inp with
  | (none, inp1) => some (s, inp1)
  | (some c, inp1) =>
    if s.mode = EditorMode.HOME then
      if c = ESC then
        match read inp1 with
        | (none, inp2) => some (s, inp2)
        | (some _, inp2) =>
          match read inp2 with
          | (none, inp3) => some (s, inp3)
          | (some k, inp3) =>
            let s1 := if k = 'A' then
                { s with homeSelection := Int.tmod (s.homeSelection + 3) 4 } else s
            let s2 := if k = 'B' then
                { s1 with homeSelection := Int.tmod (s1.homeSelection + 1) 4 } else s1
            some (s2, inp3)
      else if c = CR then
        let s1 := if s.homeSelection = 0 then
            { s with buffer := s.buffer ++ [[]], mode := EditorMode.USER_FRIENDLY } else s
        let s2 := if s1.homeSelection = 1 then { s1 with mode := EditorMode.SETTINGS } else s1
        let s3 := if s2.homeSelection = 2 then showHelp s2 else s2
        let s4 := if s3.homeSelection = 3 then { s3 with running := false } else s3
        some (s4, inp1)
      else some (s, inp1)
    else if s.mode = EditorMode.SETTINGS then
      if c = ESC then
        let inp2 := (read inp1).2
        let k := ((read inp2).1).getD env.junk
        let inp3 := (read inp2).2
        let s1 := if k = 'A' then
            { s with settingsSelection := Int.tmod (s.settingsSelection + 2) 3 } else s
        let s2 := if k = 'B' then
            { s1 with settingsSelection := Int.tmod (s1.settingsSelection + 1) 3 } else s1
        some (s2, inp3)
      else if c = CR then
        let s1 := if s.settingsSelection = 0 then
            { s with autoCompletion := !s.autoCompletion } else s
        let s2 := if s1.settingsSelection = 1 then
            { s1 with errorChecking := !s1.errorChecking } else s1
        let s3 := if s2.settingsSelection = 2 then { s2 with mode := EditorMode.HOME } else s2
        some (s3, inp1)
      else some (s, inp1)
    else if c = 'S' ∧ s.mode ≠ EditorMode.VIM_INSERT then
      some ({ s with mode := if s.mode = EditorMode.USER_FRIENDLY then EditorMode.VIM_NORMAL
                             else EditorMode.USER_FRIENDLY }, inp1)
    else if c = ESC ∧ s.mode ≠ EditorMode.VIM_INSERT then
      match read inp1 with
      | (none, inp2) => some ({ saveFile env s with running := false }, inp2)
      | (some next, inp2) =>
        if next = '[' then
          let arrow := ((read inp2).1).getD env.junk
          let inp3 := (read inp2).2
          let r1 := if arrow = 'A' then moveCursor s 0 (-1) else some s
          let r2 := r1.bind (fun s1 => if arrow = 'B' then moveCursor s1 0 1 else some s1)
          let r3 := r2.bind (fun s2 => if arrow = 'C' then moveCursor s2 1 0 else some s2)
          let r4 := r3.bind (fun s3 => if arrow = 'D' then moveCursor s3 (-1) 0 else some s3)
          r4.map (fun s4 => (s4, inp3))
        else (handleKey s c).map (fun s1 => (s1, inp2))
    else (handleKey s c).map (fun s1 => (s1, inp1))

/-- The calls of `handleInput` that the loop `while (running)` of `run` makes
(its rendering left out) until every read outcome of `inp` is consumed or
`running` is cleared.  Each call consumes at least one outcome, so `fuel` equal
to their number suffices; `none` also when the fuel runs out first. -/
def handleInputsFuel (env : Env) : Nat → NexaVim → List (Option Char) → Option NexaVim
  | _, s, [] => some s
  | 0, _, _ :: _ => none
  | fuel + 1, s, r :: rest =>
    if s.running then
      match handleInput env s (r :: rest) with
      | none => none
      | some (s1, inp1) => handleInputsFuel env fuel s1 inp1
    else some s

/-- The calls of `handleInput` made over the read outcomes `inp`. -/
def handleInputs (env : Env) (s : NexaVim) (inp : List (Option Char)) : Option NexaVim :=
  handleInputsFuel env inp.length s inp

/-- The keys `cs` as read outcomes: every byte arrives. -/
def keys (cs : List Char) : List (Option Char) := cs.map some

/-- The bounds invariant of the line buffer: the cursor row indexes a line and
the cursor column lies within that line, its end included. -/
def Inv (s : NexaVim) : Prop :=
  0 ≤ s.cursorY ∧ s.cursorY < s.buffer.length ∧
  0 ≤ s.cursorX ∧ s.cursorX ≤ (s.buffer.getD s.cursorY.toNat []).length

instance (s : NexaVim) : Decidable (Inv s) := by
  unfold Inv; infer_instance

/-- Successive calls `moveCursor(dx, dy)`, one for each pair of `moves`. -/
def moveCursors (s : NexaVim) : List (Int × Int) → Option NexaVim
  | [] => some s
  | (dx, dy) :: rest => (moveCursor s dx dy).bind (fun s1 => moveCursors s1 rest)

/-- The closer that the auto-completion branch of `handleText` inserts after the
character `c`, as a string: empty when the setting is off or `c` is none of the
four openers. -/
def autoCloser (auto : Bool) (c : Char) : List Char :=
  if auto then
    if c = '(' then [')']
    else if c = '{' then ['}']
    else if c = '[' then [']']
    else if c = '"' then ['"']
    else []
  else []

/-- The state that inserting the string `str` at the cursor is to produce: `str`
sits at the old cursor column of the current line, the rest of that line and the
other lines are as before, and the cursor column has advanced by one. -/
def insertedAtCursor (s : NexaVim) (str : List Char) : NexaVim :=
  { s with
    buffer := s.buffer.set s.cursorY.toNat
      ((s.buffer.getD s.cursorY.toNat []).take s.cursorX.toNat ++
        (str ++ (s.buffer.getD s.cursorY.toNat []).drop s.cursorX.toNat))
    cursorX := s.cursorX + 1 }

/-- An environment for the examples: the user types `out.txt` at the prompt and
the file can be opened for writing. -/
def demoEnv : Env :=
  { answer := ['o', 'u', 't', '.', 't', 'x', 't'], junk := 'A', canOpen := true }

/-- A state for the examples: the lines `ab` and `c`, the cursor at the end of
the first line, `USER_FRIENDLY` mode, the settings of a fresh editor. -/
def demo : NexaVim :=
  { buffer := [['a', 'b'], ['c']], filename := [], cursorX := 2, cursorY := 0, rowOffset := 0,
    screenRows := 24, screenCols := 80, homeSelection := 0, settingsSelection := 0,
    mode := EditorMode.USER_FRIENDLY, running := true, autoCompletion := true,
    errorChecking := true, written := [] }

/-- The constructor `NexaVim(string fn)`.  `fileLines` are the lines that
`getline` reads from the file `fn` (none when it cannot be opened) and `rows`,
`cols` the terminal size that `updateSize` stores.  Without a file name the
editor starts in `HOME` with an empty buffer; with one it starts in
`USER_FRIENDLY` on the lines of the file, or on one empty line. -/
def create (fn : List Char) (fileLines : List (List Char)) (rows cols : Int) : NexaVim :=
  let s0 : NexaVim :=
    { buffer := [], filename := fn, cursorX := 0, cursorY := 0, rowOffset := 0,
      screenRows := rows, screenCols := cols, homeSelection := 0, settingsSelection := 0,
      mode := EditorMode.HOME, running := true, autoCompletion := true,
      errorChecking := true, written := [] }
  if fn = [] then { s0 with mode := EditorMode.HOME }
  else
    { s0 with
      buffer := if fileLines = [] then [[]] else fileLines
      mode := EditorMode.USER_FRIENDLY }

/-- The rendering step of the loop of `run`: `renderHome` and `renderSettings`
change no data member modelled here, `renderEditor` applies the scroll rule. -/
def render (s : NexaVim) : NexaVim :=
  if s.mode = EditorMode.HOME then s
  else if s.mode = EditorMode.SETTINGS then s
  else renderEditor s

/-- The member function `run`, cut after `n` iterations of its loop
`while (running)`: each iteration renders and then calls `handleInput`.  The
environment of the iteration with `k` iterations still to go is `envs k`; `none`
is an out-of-range access inside `handleInput`. -/
def run (envs : Nat → Env) : Nat → NexaVim → List (Option Char) → Option NexaVim
  | 0, s, _ => some s
  | n + 1, s, inp =>
    if s.running then
      match handleInput (envs n) (render s) inp with
      | none => none
      | some (s1, inp1) => run envs n s1 inp1
    else some s

/-- The states the editor is meant to be in: both menu selections within their
menus, and either a menu mode on the still empty buffer with the cursor at the
origin, or an editing mode with the cursor within bounds. -/
def Good (s : NexaVim) : Prop :=
  (0 ≤ s.homeSelection ∧ s.homeSelection ≤ 3) ∧
  (0 ≤ s.settingsSelection ∧ s.settingsSelection ≤ 2) ∧
  (((s.mode = EditorMode.HOME ∨ s.mode = EditorMode.SETTINGS) ∧
      s.buffer = [] ∧ s.cursorX = 0 ∧ s.cursorY = 0) ∨
    ((s.mode = EditorMode.USER_FRIENDLY ∨ s.mode = EditorMode.VIM_NORMAL ∨
        s.mode = EditorMode.VIM_INSERT) ∧ Inv s))

/-- The two scrollbar indicators that `renderEditor` draws in the last column. -/
inductive Indicator where
  | highlighted
  | dim
  deriving DecidableEq, Repr

/-- A value brought into the range of a 32-bit `int`, `-2^31 .. 2^31 - 1`, by
wrapping around, as the arithmetic of the scrollbar computation does on the
usual two's-complement targets. -/
def wrapInt (x : Int) : Int := (x + 2147483648) % 4294967296 - 2147483648

/-- The local `barPos` of the loop of `renderEditor`, for the screen row `i`:
`(idx * (screenRows - 2)) / (total > 0 ? total : 1)` with `int idx = i + rowOffset`
and `int total = buffer.size()`, the product taken in a 32-bit `int` and the
division truncating as in C++. -/
def barPos (s : NexaVim) (i : Int) : Int :=
  let idx := wrapInt (i + s.rowOffset)
  let total : Int := wrapInt s.buffer.length
  Int.tdiv (wrapInt (idx * (s.screenRows - 2))) (if total > 0 then total else 1)

/-- The indicator that the loop of `renderEditor` draws on the screen row `i`:
none when the row shows no buffer line (`idx ≥ (int)buffer.size()`), else the
highlighted block when `barPos == i` and the dim one otherwise. -/
def rowIndicator (s : NexaVim) (i : Int) : Option Indicator :=
  let idx := wrapInt (i + s.rowOffset)
  if idx < wrapInt s.buffer.length then
    if barPos s i = i then some Indicator.highlighted else some Indicator.dim
  else none

/-- The scrollbar column of the frame that `renderEditor` builds: the scroll rule
first, then one indicator for each `i` with `0 ≤ i < screenRows - 2`. -/
def scrollbar (s : NexaVim) : List (Option Indicator) :=
  (List.range ((renderEditor s).screenRows - 2).toNat).map
    (fun (i : Nat) => rowIndicator (renderEditor s) (Int.ofNat i))

/-- The state that typing the string `str` at the cursor is to produce: `str`
sits at the old cursor column of the current line and the cursor column has
advanced by its length. -/
def typedAtCursor (s : NexaVim) (str : List Char) : NexaVim :=
  { s with
    buffer := s.buffer.set s.cursorY.toNat
      ((s.buffer.getD s.cursorY.toNat []).take s.cursorX.toNat ++
        (str ++ (s.buffer.getD s.cursorY.toNat []).drop s.cursorX.toNat))
    cursorX := s.cursorX + str.length }

/-- A state for the overflow example: 131066 empty lines on a terminal of 65535
rows, the viewport and the cursor at line 20000. -/
def tallDemo : NexaVim :=
  { demo with
    buffer := List.replicate 131066 []
    cursorX := 0
    cursorY := 20000
    rowOffset := 20000
    screenRows := 65535 }

/-! ## Auxiliary facts -/

theorem clamp_bounds (v lo hi : Int) (h : lo ≤ hi) :
    lo ≤ clamp v lo hi ∧ clamp v lo hi ≤ hi := by
  unfold clamp
  split_ifs <;> omega

theorem lineAt_of_lt (buf : List (List Char)) (i : Int) (h0 : 0 ≤ i) (h1 : i < buf.length) :
    lineAt buf i = some (buf.getD i.toNat []) := by
  have h2 : i.toNat < buf.length := by omega
  simp [lineAt, h0, List.getD, List.getElem?_eq_getElem h2]

theorem Inv.lineAt {s : NexaVim} (h : Inv s) :
    lineAt s.buffer s.cursorY = some (s.buffer.getD s.cursorY.toNat []) :=
  lineAt_of_lt _ _ h.1 h.2.1

theorem moveCursor_spec (s : NexaVim) (dx dy : Int) (hb : s.buffer ≠ []) :
    ∃ y x, moveCursor s dx dy = some { s with cursorY := y, cursorX := x } ∧
      Inv { s with cursorY := y, cursorX := x } := by
  have hlen : 0 < s.buffer.length := List.length_pos.mpr hb
  have hc := clamp_bounds (s.cursorY + dy) 0 ((s.buffer.length : Int) - 1) (by omega)
  have hl := lineAt_of_lt s.buffer (clamp (s.cursorY + dy) 0 ((s.buffer.length : Int) - 1))
    hc.1 (by omega)
  have hx := clamp_bounds (s.cursorX + dx) 0
    ((s.buffer.getD (clamp (s.cursorY + dy) 0 ((s.buffer.length : Int) - 1)).toNat []).length : Int)
    (by omega)
  refine ⟨clamp (s.cursorY + dy) 0 ((s.buffer.length : Int) - 1),
    clamp (s.cursorX + dx) 0
      ((s.buffer.getD (clamp (s.cursorY + dy) 0 ((s.buffer.length : Int) - 1)).toNat []).length : Int),
    ?_, ?_⟩
  · unfold moveCursor
    simp only [hl]
    rw [if_neg (by omega)]
  · exact ⟨hc.1, by simp only; omega, hx.1, hx.2⟩

theorem Inv.buffer_ne_nil {s : NexaVim} (h : Inv s) : s.buffer ≠ [] := by
  intro hb
  have h0 := h.1
  have h1 := h.2.1
  rw [hb] at h1
  simp at h1
  omega

theorem moveCursors_spec (moves : List (Int × Int)) :
    ∀ s : NexaVim, s.buffer ≠ [] → moves ≠ [] →
      ∃ y x, moveCursors s moves = some { s with cursorY := y, cursorX := x } ∧
        Inv { s with cursorY := y, cursorX := x } := by
  induction moves with
  | nil => intro s _ h; exact absurd rfl h
  | cons m rest ih =>
    intro s hb _
    obtain ⟨dx, dy⟩ := m
    obtain ⟨y, x, h1, h2⟩ := moveCursor_spec s dx dy hb
    by_cases hr : rest = []
    · subst hr
      exact ⟨y, x, by simp [moveCursors, h1], h2⟩
    · obtain ⟨y', x', h3, h4⟩ := ih { s with cursorY := y, cursorX := x } hb hr
      exact ⟨y', x', by simp [moveCursors, h1, h3], h4⟩

theorem isprint_ne_control {c : Char} (h : isprint c = true) : c ≠ DEL ∧ c ≠ BS ∧ c ≠ CR ∧ c ≠ ESC := by
  simp only [isprint, Bool.and_eq_true, decide_eq_true_eq] at h
  refine ⟨?_, ?_, ?_, ?_⟩ <;> intro hc <;> subst hc <;> revert h <;> decide

theorem handleText_erase (s : NexaVim) (c : Char) (hc : c = DEL ∨ c = BS) (h : Inv s)
    (hx : 0 < s.cursorX) :
    handleText s c = some { s with
      buffer := s.buffer.set s.cursorY.toNat
        ((s.buffer.getD s.cursorY.toNat []).take (s.cursorX.toNat - 1) ++
          (s.buffer.getD s.cursorY.toNat []).drop s.cursorX.toNat)
      cursorX := s.cursorX - 1 } := by
  have h2 := h.2.2.2
  have e1 : (s.cursorX - 1).toNat = s.cursorX.toNat - 1 := by omega
  have e2 : (s.cursorX - 1).toNat + 1 = s.cursorX.toNat := by omega
  unfold handleText
  rw [if_pos hc, if_pos hx]
  simp only [h.lineAt, strErase]
  rw [if_pos ⟨by omega, by omega⟩, e2, e1]

theorem handleText_join (s : NexaVim) (c : Char) (hc : c = DEL ∨ c = BS) (h : Inv s)
    (hx : s.cursorX = 0) (hy : 0 < s.cursorY) :
    handleText s c = some { s with
      cursorX := ((s.buffer.getD (s.cursorY.toNat - 1) []).length : Int)
      buffer := vecErase (s.buffer.set (s.cursorY.toNat - 1)
        (s.buffer.getD (s.cursorY.toNat - 1) [] ++ s.buffer.getD s.cursorY.toNat [])) s.cursorY.toNat
      cursorY := s.cursorY - 1 } := by
  have h1 := h.2.1
  have e1 : (s.cursorY - 1).toNat = s.cursorY.toNat - 1 := by omega
  have hp := lineAt_of_lt s.buffer (s.cursorY - 1) (by omega) (by omega)
  unfold handleText
  rw [if_pos hc, if_neg (by omega), if_pos hy]
  simp only [h.lineAt, hp, e1]

theorem handleText_start (s : NexaVim) (c : Char) (hc : c = DEL ∨ c = BS)
    (hx : s.cursorX = 0) (hy : s.cursorY = 0) : handleText s c = some s := by
  unfold handleText
  rw [if_pos hc, if_neg (by omega), if_neg (by omega)]

theorem handleText_split (s : NexaVim) (h : Inv s) :
    handleText s CR = some { s with
      buffer :=
        (s.buffer.set s.cursorY.toNat
            ((s.buffer.getD s.cursorY.toNat []).take s.cursorX.toNat)).take (s.cursorY.toNat + 1) ++
          (s.buffer.getD s.cursorY.toNat []).drop s.cursorX.toNat ::
            (s.buffer.set s.cursorY.toNat
              ((s.buffer.getD s.cursorY.toNat []).take s.cursorX.toNat)).drop (s.cursorY.toNat + 1)
      cursorY := s.cursorY + 1
      cursorX := 0 } := by
  have h0 := h.1
  have h1 := h.2.1
  have h2 := h.2.2.1
  have h3 := h.2.2.2
  have e1 : (s.cursorY + 1).toNat = s.cursorY.toNat + 1 := by omega
  unfold handleText
  rw [if_neg (by decide), if_pos rfl]
  simp only [h.lineAt, substr, substrTo, vecInsert, List.length_set]
  rw [if_pos ⟨h2, h3⟩, if_pos h2]
  simp only []
  rw [if_pos ⟨by omega, by omega⟩]
  simp only [e1]

theorem strInsert_at (l : List Char) (x : Nat) (hx : x ≤ l.length) (c : Char) :
    strInsert l (x : Int) c = some (l.take x ++ c :: l.drop x) := by
  unfold strInsert
  rw [if_pos ⟨by omega, by omega⟩]
  rfl

theorem take_succ_append_cons {α : Type} (a b : List α) (c : α) :
    (a ++ c :: b).take (a.length + 1) = a ++ [c] := by
  induction a with
  | nil => simp
  | cons _ _ ih => simp [ih]

theorem drop_succ_append_cons {α : Type} (a b : List α) (c : α) :
    (a ++ c :: b).drop (a.length + 1) = b := by
  induction a with
  | nil => simp
  | cons _ _ ih => simp [ih]

theorem strInsert_after (l : List Char) (x : Nat) (hx : x ≤ l.length) (c d : Char) :
    strInsert (l.take x ++ c :: l.drop x) ((x : Int) + 1) d =
      some (l.take x ++ c :: d :: l.drop x) := by
  have hlen : (l.take x).length = x := by simp [hx]
  have e : ((x : Int) + 1).toNat = (l.take x).length + 1 := by omega
  unfold strInsert
  rw [if_pos ⟨by omega, by simp; omega⟩, e, take_succ_append_cons, drop_succ_append_cons]
  simp

theorem handleText_insert (s : NexaVim) (c : Char) (hp : isprint c = true) (h : Inv s) :
    handleText s c = some { s with
      buffer := s.buffer.set s.cursorY.toNat
        ((s.buffer.getD s.cursorY.toNat []).take s.cursorX.toNat ++
          c :: (autoCloser s.autoCompletion c ++ (s.buffer.getD s.cursorY.toNat []).drop s.cursorX.toNat))
      cursorX := s.cursorX + 1 } := by
  have h2 := h.2.2.1
  have h3 := h.2.2.2
  obtain ⟨n1, n2, n3, _⟩ := isprint_ne_control hp
  have hl := h.lineAt
  generalize s.buffer.getD s.cursorY.toNat [] = line at *
  have hx : s.cursorX = (s.cursorX.toNat : Int) := by omega
  have hx' : s.cursorX.toNat ≤ line.length := by omega
  have k0 := strInsert_at line s.cursorX.toNat hx' c
  have k1 := fun d => strInsert_after line s.cursorX.toNat hx' c d
  rw [← hx] at k0 k1
  unfold handleText
  rw [if_neg (by simp [n1, n2]), if_neg n3, if_pos hp]
  simp only [hl, k0]
  unfold autoCloser
  by_cases ha : s.autoCompletion = true
  · rw [if_pos ha, if_pos ha]
    by_cases c1 : c = '('
    · rw [if_pos c1, if_pos c1, k1]; rfl
    · rw [if_neg c1, if_neg c1]
      by_cases c2 : c = '{'
      · rw [if_pos c2, if_pos c2, k1]; rfl
      · rw [if_neg c2, if_neg c2]
        by_cases c3 : c = '['
        · rw [if_pos c3, if_pos c3, k1]; rfl
        · rw [if_neg c3, if_neg c3]
          by_cases c4 : c = '"'
          · rw [if_pos c4, if_pos c4, k1]; rfl
          · rw [if_neg c4, if_neg c4]; rfl
  · rw [if_neg ha, if_neg ha]; rfl

theorem handleText_other (s : NexaVim) (c : Char) (h1 : c ≠ DEL) (h2 : c ≠ BS) (h3 : c ≠ CR)
    (h4 : isprint c = false) : handleText s c = some s := by
  unfold handleText
  rw [if_neg (by simp [h1, h2]), if_neg h3, if_neg (by simp [h4])]

theorem getD_set_self (buf : List (List Char)) (i : Nat) (hi : i < buf.length) (l : List Char) :
    (buf.set i l).getD i [] = l := by
  simp [List.getD, List.getElem?_set, hi]

theorem Inv_set (s : NexaVim) (h : Inv s) (l : List Char) (x : Int) (hx0 : 0 ≤ x)
    (hx1 : x ≤ l.length) :
    Inv { s with buffer := s.buffer.set s.cursorY.toNat l, cursorX := x } := by
  have h0 := h.1
  have h1 := h.2.1
  refine ⟨h0, by simp only [List.length_set]; exact h1, hx0, ?_⟩
  simp only
  rw [getD_set_self _ _ (by omega)]
  exact hx1

theorem Inv_join (s : NexaVim) (h : Inv s) (hy : 0 < s.cursorY) :
    Inv { s with
      cursorX := ((s.buffer.getD (s.cursorY.toNat - 1) []).length : Int)
      buffer := vecErase (s.buffer.set (s.cursorY.toNat - 1)
        (s.buffer.getD (s.cursorY.toNat - 1) [] ++ s.buffer.getD s.cursorY.toNat [])) s.cursorY.toNat
      cursorY := s.cursorY - 1 } := by
  have h1 := h.2.1
  have e1 : (s.cursorY - 1).toNat = s.cursorY.toNat - 1 := by omega
  have hlt : s.cursorY.toNat - 1 < s.cursorY.toNat := by omega
  have hlt2 : s.cursorY.toNat - 1 < s.buffer.length := by omega
  refine ⟨by simp only; omega, ?_, by simp only; omega, ?_⟩
  · simp only [vecErase, List.length_append, List.length_take, List.length_drop, List.length_set]
    omega
  · simp only [e1, vecErase]
    rw [List.getD_append _ _ _ _ (by simp only [List.length_take, List.length_set]; omega)]
    simp [List.getD, List.getElem?_take, hlt, List.getElem?_set, hlt2]

theorem Inv_split (s : NexaVim) (h : Inv s) :
    Inv { s with
      buffer :=
        (s.buffer.set s.cursorY.toNat
            ((s.buffer.getD s.cursorY.toNat []).take s.cursorX.toNat)).take (s.cursorY.toNat + 1) ++
          (s.buffer.getD s.cursorY.toNat []).drop s.cursorX.toNat ::
            (s.buffer.set s.cursorY.toNat
              ((s.buffer.getD s.cursorY.toNat []).take s.cursorX.toNat)).drop (s.cursorY.toNat + 1)
      cursorY := s.cursorY + 1
      cursorX := 0 } := by
  have h0 := h.1
  have h1 := h.2.1
  have e1 : (s.cursorY + 1).toNat = s.cursorY.toNat + 1 := by omega
  refine ⟨by simp only; omega, ?_, le_refl _, ?_⟩
  · simp only [List.length_append, List.length_take, List.length_drop, List.length_set,
      List.length_cons]
    omega
  · simp only [e1]
    exact Int.ofNat_nonneg _

theorem set_length_append_cons {α : Type} (a b : List α) (c d : α) :
    (a ++ c :: b).set a.length d = a ++ d :: b := by
  induction a with
  | nil => simp
  | cons _ _ ih => simp [ih]

theorem getD_length_append_cons (a b : List (List Char)) (c : List Char) :
    (a ++ c :: b).getD a.length [] = c := by
  induction a with
  | nil => simp
  | cons _ _ ih => simpa using ih

theorem split_join_buffer (pre post : List (List Char)) (line : List Char) (x : Nat) :
    vecErase
      (((((pre ++ line :: post).set pre.length (line.take x)).take (pre.length + 1) ++
          line.drop x :: ((pre ++ line :: post).set pre.length (line.take x)).drop (pre.length + 1))).set
        pre.length (line.take x ++ line.drop x)) (pre.length + 1) = pre ++ line :: post := by
  rw [set_length_append_cons, take_succ_append_cons, drop_succ_append_cons]
  simp only [List.append_assoc, List.singleton_append]
  rw [set_length_append_cons]
  unfold vecErase
  rw [take_succ_append_cons]
  have e : (pre ++ (line.take x ++ line.drop x) :: line.drop x :: post).drop (pre.length + 1 + 1)
      = post := by
    have := drop_succ_append_cons (pre ++ [line.take x ++ line.drop x]) post (line.drop x)
    simpa using this
  rw [e]
  simp

theorem Inv.decompose {s : NexaVim} (h : Inv s) :
    ∃ pre post, s.buffer = pre ++ s.buffer.getD s.cursorY.toNat [] :: post ∧
      pre.length = s.cursorY.toNat := by
  have h0 := h.1
  have h1 := h.2.1
  have hlt : s.cursorY.toNat < s.buffer.length := by omega
  refine ⟨s.buffer.take s.cursorY.toNat, s.buffer.drop (s.cursorY.toNat + 1), ?_, ?_⟩
  · have e : s.buffer.getD s.cursorY.toNat [] = s.buffer[s.cursorY.toNat] := by
      simp [List.getD, List.getElem?_eq_getElem hlt]
    rw [e, ← List.drop_eq_getElem_cons hlt, List.take_append_drop]
  · simp only [List.length_take]
    omega

theorem handleInput_text_friendly (env : Env) (s : NexaVim) (c : Char)
    (rest : List (Option Char)) (hm : s.mode = EditorMode.USER_FRIENDLY)
    (h1 : c ≠ 'S') (h2 : c ≠ ESC) (h3 : c ≠ 'X') :
    handleInput env s (some c :: rest) = (handleText s c).map (fun s1 => (s1, rest)) := by
  simp [handleInput, handleKey, read, hm, h1, h2, h3]

theorem handleInput_text_insert (env : Env) (s : NexaVim) (c : Char)
    (rest : List (Option Char)) (hm : s.mode = EditorMode.VIM_INSERT) :
    handleInput env s (some c :: rest) = (handleText s c).map (fun s1 => (s1, rest)) := by
  simp [handleInput, handleKey, read, hm]

theorem handleInputs_step (env : Env) (s s1 : NexaVim) (r : Option Char)
    (rest : List (Option Char)) (hr : s.running = true)
    (h : handleInput env s (r :: rest) = some (s1, rest)) :
    handleInputs env s (r :: rest) = handleInputs env s1 rest := by
  simp [handleInputs, handleInputsFuel, hr, h]

theorem handleInputs_stopped (env : Env) (s : NexaVim) (inp : List (Option Char))
    (hr : s.running = false) : handleInputs env s inp = some s := by
  cases inp with
  | nil => rfl
  | cons r rest => simp [handleInputs, handleInputsFuel, hr]

theorem set_getD_self (buf : List (List Char)) (i : Nat) (hi : i < buf.length) :
    buf.set i (buf.getD i []) = buf := by
  induction buf generalizing i with
  | nil => simp
  | cons a t ih =>
    cases i with
    | zero => simp
    | succ n =>
      have hn : n < t.length := by simpa using hi
      simpa using ih n hn

theorem insert_then_erase (s : NexaVim) (c b : Char) (hp : isprint c = true)
    (hb : b = DEL ∨ b = BS) (h : Inv s) (hno : autoCloser s.autoCompletion c = []) :
    (handleText s c).bind (fun s1 => handleText s1 b) = some s := by
  have h0 := h.1
  have h1 := h.2.1
  have h2 := h.2.2.1
  have h3 := h.2.2.2
  have hlt : s.cursorY.toNat < s.buffer.length := by omega
  rw [handleText_insert s c hp h, Option.some_bind, hno, List.nil_append]
  have hi : Inv { s with
      buffer := s.buffer.set s.cursorY.toNat
        ((s.buffer.getD s.cursorY.toNat []).take s.cursorX.toNat ++
          c :: (s.buffer.getD s.cursorY.toNat []).drop s.cursorX.toNat)
      cursorX := s.cursorX + 1 } := by
    refine Inv_set s h _ _ (by omega) ?_
    simp only [List.length_append, List.length_take, List.length_drop, List.length_cons]
    omega
  rw [handleText_erase _ b hb hi (by simp only; omega)]
  have e1 : (s.cursorX + 1).toNat - 1 = ((s.buffer.getD s.cursorY.toNat []).take s.cursorX.toNat).length := by
    simp only [List.length_take]
    omega
  have e2 : (s.cursorX + 1).toNat =
      ((s.buffer.getD s.cursorY.toNat []).take s.cursorX.toNat).length + 1 := by
    simp only [List.length_take]
    omega
  simp only [getD_set_self _ _ hlt]
  rw [e1, e2]
  simp only [List.take_left, drop_succ_append_cons, List.take_append_drop, List.set_set,
    set_getD_self _ _ hlt, add_sub_cancel_right]

theorem autoCloser_eq_nil (auto : Bool) (c : Char)
    (h : auto = true → c ≠ '(' ∧ c ≠ '{' ∧ c ≠ '[' ∧ c ≠ '"') : autoCloser auto c = [] := by
  unfold autoCloser
  by_cases ha : auto = true
  · obtain ⟨h1, h2, h3, h4⟩ := h ha
    simp [ha, h1, h2, h3, h4]
  · simp [ha]

theorem backspace_ne_command {b : Char} (hb : b = DEL ∨ b = BS) :
    b ≠ 'S' ∧ b ≠ ESC ∧ b ≠ 'X' := by
  rcases hb with rfl | rfl <;> decide

theorem insert_erase_step (s : NexaVim) (c b : Char) (hp : isprint c = true)
    (hb : b = DEL ∨ b = BS) (h : Inv s) (hno : autoCloser s.autoCompletion c = []) :
    ∃ s1, handleText s c = some s1 ∧ Inv s1 ∧ s1.mode = s.mode ∧ s1.running = s.running ∧
      s1.autoCompletion = s.autoCompletion ∧ handleText s1 b = some s := by
  have hround := insert_then_erase s c b hp hb h hno
  have hins := handleText_insert s c hp h
  rw [hno, List.nil_append] at hins
  rw [hins, Option.some_bind] at hround
  refine ⟨_, hins, ?_, rfl, rfl, rfl, hround⟩
  have h2 := h.2.2.1
  have h3 := h.2.2.2
  refine Inv_set s h _ _ (by omega) ?_
  simp only [List.length_append, List.length_take, List.length_drop, List.length_cons]
  omega

theorem typing_then_backspaces_aux (env : Env) (cs : List Char) :
    ∀ (s : NexaVim) (bs : List Char) (tail : List (Option Char)),
      s.mode = EditorMode.USER_FRIENDLY → Inv s →
      (∀ c ∈ cs, isprint c = true ∧ c ≠ 'S' ∧ c ≠ 'X' ∧
        (s.autoCompletion = true → c ≠ '(' ∧ c ≠ '{' ∧ c ≠ '[' ∧ c ≠ '"')) →
      (∀ b ∈ bs, b = DEL ∨ b = BS) → bs.length = cs.length →
      handleInputs env s (keys (cs ++ bs) ++ tail) = handleInputs env s tail := by
  induction cs with
  | nil =>
    intro s bs tail _ _ _ _ hn
    have : bs = [] := List.length_eq_zero.mp (by simpa using hn)
    subst this
    rfl
  | cons c cs ih =>
    intro s bs tail hm h hcs hbs hn
    rcases List.eq_nil_or_concat bs with hnil | ⟨bs1, b, hcat⟩
    · subst hnil
      simp at hn
    rw [List.concat_eq_append] at hcat
    subst hcat
    have hn1 : bs1.length = cs.length := by simpa using hn
    obtain ⟨hp, hS, hX, hopen⟩ := hcs c (List.mem_cons_self _ _)
    have hb : b = DEL ∨ b = BS := hbs b (by simp)
    obtain ⟨bS, bE, bX⟩ := backspace_ne_command hb
    have hE : c ≠ ESC := (isprint_ne_control hp).2.2.2
    have hno := autoCloser_eq_nil s.autoCompletion c hopen
    have hshape : keys (c :: cs ++ (bs1 ++ [b])) ++ tail =
        some c :: (keys (cs ++ bs1) ++ (some b :: tail)) := by
      simp [keys]
    rw [hshape]
    by_cases hr : s.running = true
    swap
    · have hr1 : s.running = false := by simpa using hr
      rw [handleInputs_stopped env s _ hr1, handleInputs_stopped env s _ hr1]
    obtain ⟨s1, hins, hi1, hm1, hr1, ha1, hback⟩ := insert_erase_step s c b hp hb h hno
    rw [handleInputs_step env s s1 (some c) _ hr
      (by rw [handleInput_text_friendly env s c _ hm hS hE hX, hins]; rfl)]
    rw [ih s1 bs1 (some b :: tail) (hm1.trans hm) hi1
      (fun d hd => by rw [ha1]; exact hcs d (List.mem_cons_of_mem _ hd))
      (fun d hd => hbs d (by simp [hd])) hn1]
    rw [handleInputs_step env s1 s (some b) tail (hr1.trans hr)
      (by rw [handleInput_text_friendly env s1 b _ (hm1.trans hm) bS bE bX, hback]; rfl)]

theorem handleInput_vim_normal_i (env : Env) (s : NexaVim) (rest : List (Option Char))
    (hm : s.mode = EditorMode.VIM_NORMAL) :
    handleInput env s (some 'i' :: rest) = some ({ s with mode := EditorMode.VIM_INSERT }, rest) := by
  have e1 : ('i' : Char) ≠ 'S' := by decide
  have e2 : ('i' : Char) ≠ ESC := by decide
  have e3 : ('i' : Char) ≠ 'X' := by decide
  simp [handleInput, handleKey, read, hm, e1, e2, e3]

theorem handleInput_vim_normal_buffer (env : Env) (s : NexaVim) (c : Char)
    (rest : List (Option Char)) (hm : s.mode = EditorMode.VIM_NORMAL) (hb : s.buffer ≠ [])
    (hE : c ≠ ESC) :
    ∃ s1, handleInput env s (some c :: rest) = some (s1, rest) ∧ s1.buffer = s.buffer := by
  by_cases hS : c = 'S'
  · refine ⟨{ s with mode := EditorMode.USER_FRIENDLY }, ?_, rfl⟩
    simp [handleInput, handleKey, read, hm, hS]
  by_cases hX : c = 'X'
  · refine ⟨{ s with running := false }, ?_, rfl⟩
    have e1 : ('X' : Char) ≠ 'S' := by decide
    have e2 : ('X' : Char) ≠ ESC := by decide
    simp [handleInput, handleKey, read, hm, hX, e1, e2]
  by_cases hi : c = 'i'
  · subst hi
    exact ⟨{ s with mode := EditorMode.VIM_INSERT }, handleInput_vim_normal_i env s rest hm, rfl⟩
  have hmove : ∀ dx dy, ∃ s1, (moveCursor s dx dy).map (fun s1 => (s1, rest)) = some (s1, rest) ∧
      s1.buffer = s.buffer := by
    intro dx dy
    obtain ⟨y, x, e, _⟩ := moveCursor_spec s dx dy hb
    exact ⟨{ s with cursorY := y, cursorX := x }, by rw [e]; rfl, rfl⟩
  by_cases hh : c = 'h'
  · obtain ⟨s1, e, eb⟩ := hmove (-1) 0
    have e1 : ('h' : Char) ≠ 'S' := by decide
    have e2 : ('h' : Char) ≠ ESC := by decide
    have e3 : ('h' : Char) ≠ 'X' := by decide
    have e4 : ('h' : Char) ≠ 'i' := by decide
    exact ⟨s1, by simpa [handleInput, handleKey, read, hm, hh, e1, e2, e3, e4] using e, eb⟩
  by_cases hj : c = 'j'
  · obtain ⟨s1, e, eb⟩ := hmove 0 1
    have e1 : ('j' : Char) ≠ 'S' := by decide
    have e2 : ('j' : Char) ≠ ESC := by decide
    have e3 : ('j' : Char) ≠ 'X' := by decide
    have e4 : ('j' : Char) ≠ 'i' := by decide
    have e5 : ('j' : Char) ≠ 'h' := by decide
    exact ⟨s1, by simpa [handleInput, handleKey, read, hm, hj, e1, e2, e3, e4, e5] using e, eb⟩
  by_cases hk : c = 'k'
  · obtain ⟨s1, e, eb⟩ := hmove 0 (-1)
    have e1 : ('k' : Char) ≠ 'S' := by decide
    have e2 : ('k' : Char) ≠ ESC := by decide
    have e3 : ('k' : Char) ≠ 'X' := by decide
    have e4 : ('k' : Char) ≠ 'i' := by decide
    have e5 : ('k' : Char) ≠ 'h' := by decide
    have e6 : ('k' : Char) ≠ 'j' := by decide
    exact ⟨s1, by simpa [handleInput, handleKey, read, hm, hk, e1, e2, e3, e4, e5, e6] using e, eb⟩
  by_cases hl : c = 'l'
  · obtain ⟨s1, e, eb⟩ := hmove 1 0
    have e1 : ('l' : Char) ≠ 'S' := by decide
    have e2 : ('l' : Char) ≠ ESC := by decide
    have e3 : ('l' : Char) ≠ 'X' := by decide
    have e4 : ('l' : Char) ≠ 'i' := by decide
    have e5 : ('l' : Char) ≠ 'h' := by decide
    have e6 : ('l' : Char) ≠ 'j' := by decide
    have e7 : ('l' : Char) ≠ 'k' := by decide
    exact ⟨s1, by simpa [handleInput, handleKey, read, hm, hl, e1, e2, e3, e4, e5, e6, e7] using e, eb⟩
  exact ⟨s, by simp [handleInput, handleKey, read, hm, hS, hX, hi, hh, hj, hk, hl, hE], rfl⟩

theorem handleInput_arrow (env : Env) (s : NexaVim) (k : Char) (rest : List (Option Char))
    (hm : s.mode = EditorMode.USER_FRIENDLY ∨ s.mode = EditorMode.VIM_NORMAL) :
    handleInput env s (some ESC :: some '[' :: some k :: rest) =
      ((((if k = 'A' then moveCursor s 0 (-1) else some s).bind
            (fun s1 => if k = 'B' then moveCursor s1 0 1 else some s1)).bind
          (fun s2 => if k = 'C' then moveCursor s2 1 0 else some s2)).bind
        (fun s3 => if k = 'D' then moveCursor s3 (-1) 0 else some s3)).map
        (fun s4 => (s4, rest)) := by
  have e1 : ESC ≠ 'S' := by decide
  have hmode : s.mode ≠ EditorMode.HOME ∧ s.mode ≠ EditorMode.SETTINGS ∧
      s.mode ≠ EditorMode.VIM_INSERT := by
    rcases hm with hm | hm <;> rw [hm] <;> decide
  simp [handleInput, handleKey, read, hmode.1, hmode.2.1, hmode.2.2, e1]

theorem read_length (inp : List (Option Char)) : (read inp).2.length ≤ inp.length := by
  cases inp <;> simp [read]

theorem map_pair_snd {α : Type} (o : Option α) (a : α) (inpT inp1 : List (Option Char))
    (h : o.map (fun s1 => (s1, inpT)) = some (a, inp1)) : inp1 = inpT := by
  cases o with
  | none => simp at h
  | some v =>
    simp only [Option.map_some', Option.some.injEq, Prod.mk.injEq] at h
    exact h.2.symm

theorem handleInput_consumes (env : Env) (s s1 : NexaVim) (r : Option Char)
    (rest inp1 : List (Option Char)) (h : handleInput env s (r :: rest) = some (s1, inp1)) :
    inp1.length ≤ rest.length := by
  have k1 := read_length rest
  have k2 := read_length (read rest).2
  suffices hs : inp1 = rest ∨ inp1 = (read rest).2 ∨ inp1 = (read (read rest).2).2 by
    rcases hs with e | e | e <;> rw [e] <;> omega
  cases r with
  | none =>
    simp only [handleInput, read, Option.some.injEq, Prod.mk.injEq] at h
    exact Or.inl h.2.symm
  | some c =>
    unfold handleInput at h
    simp only [read] at h
    by_cases hH : s.mode = EditorMode.HOME
    · rw [if_pos hH] at h
      by_cases hE : c = ESC
      · rw [if_pos hE] at h
        rcases hr1 : read rest with ⟨_ | b1, inp2⟩
        · simp only [read] at hr1
          simp only [hr1, Option.some.injEq, Prod.mk.injEq] at h
          exact Or.inr (Or.inl h.2.symm)
        · simp only [read] at hr1
          simp only [hr1] at h
          rcases hr2 : read inp2 with ⟨_ | b2, inp3⟩
          · simp only [read] at hr2
            simp only [hr2, Option.some.injEq, Prod.mk.injEq] at h
            exact Or.inr (Or.inr h.2.symm)
          · simp only [read] at hr2
            simp only [hr2, Option.some.injEq, Prod.mk.injEq] at h
            exact Or.inr (Or.inr h.2.symm)
      · rw [if_neg hE] at h
        by_cases hC : c = CR
        · rw [if_pos hC] at h
          simp only [Option.some.injEq, Prod.mk.injEq] at h
          exact Or.inl h.2.symm
        · rw [if_neg hC] at h
          simp only [Option.some.injEq, Prod.mk.injEq] at h
          exact Or.inl h.2.symm
    · rw [if_neg hH] at h
      by_cases hT : s.mode = EditorMode.SETTINGS
      · rw [if_pos hT] at h
        by_cases hE : c = ESC
        · rw [if_pos hE] at h
          simp only [Option.some.injEq, Prod.mk.injEq] at h
          exact Or.inr (Or.inr h.2.symm)
        · rw [if_neg hE] at h
          by_cases hC : c = CR
          · rw [if_pos hC] at h
            simp only [Option.some.injEq, Prod.mk.injEq] at h
            exact Or.inl h.2.symm
          · rw [if_neg hC] at h
            simp only [Option.some.injEq, Prod.mk.injEq] at h
            exact Or.inl h.2.symm
      · rw [if_neg hT] at h
        by_cases hS : c = 'S' ∧ s.mode ≠ EditorMode.VIM_INSERT
        · rw [if_pos hS] at h
          simp only [Option.some.injEq, Prod.mk.injEq] at h
          exact Or.inl h.2.symm
        · rw [if_neg hS] at h
          by_cases hE : c = ESC ∧ s.mode ≠ EditorMode.VIM_INSERT
          · rw [if_pos hE] at h
            rcases hr1 : read rest with ⟨_ | b1, inp2⟩
            · simp only [read] at hr1
              simp only [hr1, Option.some.injEq, Prod.mk.injEq] at h
              exact Or.inr (Or.inl h.2.symm)
            · simp only [read] at hr1
              simp only [hr1] at h
              by_cases hb : b1 = '['
              · rw [if_pos hb] at h
                exact Or.inr (Or.inr (map_pair_snd _ _ _ _ h))
              · rw [if_neg hb] at h
                exact Or.inr (Or.inl (map_pair_snd _ _ _ _ h))
          · rw [if_neg hE] at h
            exact Or.inl (map_pair_snd _ _ _ _ h)

theorem handleInputsFuel_nil (env : Env) (fuel : Nat) (s : NexaVim) :
    handleInputsFuel env fuel s [] = some s := by
  cases fuel <;> rfl

theorem handleInputsFuel_mono (env : Env) (fuel : Nat) :
    ∀ (s : NexaVim) (inp : List (Option Char)) (extra : Nat), inp.length ≤ fuel →
      handleInputsFuel env (fuel + extra) s inp = handleInputsFuel env fuel s inp := by
  induction fuel with
  | zero =>
    intro s inp extra hl
    have : inp = [] := List.length_eq_zero.mp (by omega)
    subst this
    rw [handleInputsFuel_nil, handleInputsFuel_nil]
  | succ n ih =>
    intro s inp extra hl
    cases inp with
    | nil => rw [handleInputsFuel_nil, handleInputsFuel_nil]
    | cons r rest =>
      have e : n + 1 + extra = (n + extra) + 1 := by omega
      rw [e]
      simp only [handleInputsFuel]
      by_cases hr : s.running = true
      · simp only [hr, if_true]
        rcases hh : handleInput env s (r :: rest) with _ | ⟨s1, inp1⟩
        · rfl
        · have hc := handleInput_consumes env s s1 r rest inp1 hh
          simp only [List.length_cons] at hl
          exact ih s1 inp1 extra (by omega)
      · simp [hr]

/-- One call of `handleInput` in a running editor, then the calls over what it
left unread: the fuel of `handleInputs` never runs out. -/
theorem handleInputs_cons (env : Env) (s : NexaVim) (r : Option Char)
    (rest : List (Option Char)) (hr : s.running = true) :
    handleInputs env s (r :: rest) =
      (handleInput env s (r :: rest)).bind (fun p => handleInputs env p.1 p.2) := by
  unfold handleInputs
  simp only [List.length_cons, handleInputsFuel, hr, if_true]
  rcases hh : handleInput env s (r :: rest) with _ | ⟨s1, inp1⟩
  · rfl
  · have hc := handleInput_consumes env s s1 r rest inp1 hh
    obtain ⟨extra, he⟩ : ∃ extra, rest.length = inp1.length + extra := ⟨rest.length - inp1.length, by omega⟩
    simp only [Option.some_bind]
    rw [he]
    exact handleInputsFuel_mono env inp1.length s1 inp1 extra (le_refl _)

theorem handleText_frame (s s1 : NexaVim) (c : Char) (h : handleText s c = some s1) :
    s1 = { s with buffer := s1.buffer, cursorX := s1.cursorX, cursorY := s1.cursorY } := by
  unfold handleText at h
  simp only at h
  split_ifs at h
  all_goals (try split at h)
  all_goals (try split at h)
  all_goals (try split at h)
  all_goals (first | (simp only [Option.some.injEq] at h; subst h; rfl) | (simp at h))

theorem moveCursor_frame (s s1 : NexaVim) (dx dy : Int) (h : moveCursor s dx dy = some s1) :
    s1 = { s with buffer := s.buffer, cursorX := s1.cursorX, cursorY := s1.cursorY } := by
  unfold moveCursor at h
  simp only at h
  split_ifs at h
  all_goals (try split at h)
  all_goals (first | (simp only [Option.some.injEq] at h; subst h; rfl) | (simp at h))

theorem Inv.decompose_two {s : NexaVim} (h : Inv s) (hy : 0 < s.cursorY) :
    ∃ pre prev cur post, s.buffer = pre ++ prev :: cur :: post ∧
      pre.length + 1 = s.cursorY.toNat ∧
      s.buffer.getD (s.cursorY.toNat - 1) [] = prev ∧ s.buffer.getD s.cursorY.toNat [] = cur := by
  have h1 := h.2.1
  obtain ⟨n, hn⟩ : ∃ n : Nat, s.cursorY.toNat = n + 1 := ⟨s.cursorY.toNat - 1, by omega⟩
  have hlt : n + 1 < s.buffer.length := by omega
  have hlt0 : n < s.buffer.length := by omega
  have e : s.buffer = s.buffer.take n ++ s.buffer[n] :: s.buffer[n + 1] :: s.buffer.drop (n + 2) := by
    rw [← List.drop_eq_getElem_cons hlt, ← List.drop_eq_getElem_cons hlt0, List.take_append_drop]
  refine ⟨s.buffer.take n, s.buffer[n], s.buffer[n + 1], s.buffer.drop (n + 2), e, ?_, ?_, ?_⟩
  · simp only [List.length_take]
    omega
  · simp [hn, List.getD, List.getElem?_eq_getElem hlt0]
  · simp [hn, List.getD, List.getElem?_eq_getElem hlt]

theorem join_buffer (pre post : List (List Char)) (prev cur : List Char) :
    vecErase ((pre ++ prev :: cur :: post).set pre.length (prev ++ cur)) (pre.length + 1) =
      pre ++ (prev ++ cur) :: post := by
  rw [set_length_append_cons]
  unfold vecErase
  rw [take_succ_append_cons]
  have e := drop_succ_append_cons (pre ++ [prev ++ cur]) post cur
  simp only [List.length_append, List.length_singleton, List.append_assoc,
    List.singleton_append] at e
  rw [e]
  simp

theorem handleInput_toggle (env : Env) (s : NexaVim) (rest : List (Option Char))
    (hm : s.mode = EditorMode.USER_FRIENDLY ∨ s.mode = EditorMode.VIM_NORMAL) :
    handleInput env s (some 'S' :: rest) =
      some ({ s with mode := if s.mode = EditorMode.USER_FRIENDLY then EditorMode.VIM_NORMAL
                             else EditorMode.USER_FRIENDLY }, rest) := by
  rcases hm with hm | hm <;> simp [handleInput, read, hm]

theorem renderEditor_frame (s : NexaVim) :
    renderEditor s = { s with rowOffset := (renderEditor s).rowOffset } := by
  unfold renderEditor
  dsimp only
  split_ifs <;> rfl

theorem renderEditor_rowOffset_eq (s : NexaVim) (hv : 1 ≤ s.screenRows - 2) :
    (renderEditor s).rowOffset =
      if s.rowOffset + (s.screenRows - 2) ≤ s.cursorY then s.cursorY - (s.screenRows - 2) + 1
      else if s.cursorY < s.rowOffset then s.cursorY else s.rowOffset := by
  unfold renderEditor
  by_cases h1 : s.cursorY ≥ s.rowOffset + s.screenRows - 2
  · have h1a : s.rowOffset + (s.screenRows - 2) ≤ s.cursorY := by omega
    rw [if_pos h1, if_pos h1a]
    dsimp only
    rw [if_neg (by omega)]
    dsimp only
    omega
  · have h1a : ¬ s.rowOffset + (s.screenRows - 2) ≤ s.cursorY := by omega
    rw [if_neg h1, if_neg h1a]
    dsimp only
    by_cases h2 : s.cursorY < s.rowOffset
    · rw [if_pos h2, if_pos h2]
    · rw [if_neg h2, if_neg h2]

theorem wrapInt_of_range (x : Int) (h0 : -2147483648 ≤ x) (h1 : x < 2147483648) :
    wrapInt x = x := by
  unfold wrapInt
  omega

theorem barPos_eq_floor (s : NexaVim) (i : Int) (hv : 1 ≤ s.screenRows - 2)
    (hi : 0 ≤ i + s.rowOffset) (hlen : (s.buffer.length : Int) < 2147483648)
    (hprod : (i + s.rowOffset) * (s.screenRows - 2) < 2147483648) :
    barPos s i = ((i + s.rowOffset) * (s.screenRows - 2)) / max (s.buffer.length : Int) 1 := by
  have hnn : 0 ≤ (i + s.rowOffset) * (s.screenRows - 2) := Int.mul_nonneg hi (by omega)
  have hidx : i + s.rowOffset < 2147483648 := by nlinarith
  unfold barPos
  dsimp only
  rw [wrapInt_of_range _ (by omega) hidx, wrapInt_of_range _ (by omega) hprod,
    wrapInt_of_range _ (by omega) hlen]
  have hmax : (if (s.buffer.length : Int) > 0 then (s.buffer.length : Int) else 1) =
      max (s.buffer.length : Int) 1 := by
    split_ifs <;> omega
  rw [hmax]
  exact Int.tdiv_eq_ediv hnn (by omega)

/-- Where the 32-bit product wraps: on row 20000 of `tallDemo` the product
`40000 * 65533` exceeds `2^31`, `barPos` comes out negative and the row gets the
dim indicator, though the quotient of the unwrapped product would be the row. -/
theorem barPos_wraps_on_large_files :
    barPos tallDemo 20000 = -12769 ∧ rowIndicator tallDemo 20000 = some Indicator.dim ∧
    ((20000 + 20000 : Int) * (65535 - 2)) / max (131066 : Int) 1 = 20000 := by
  have hb : barPos tallDemo 20000 = -12769 := by
    simp only [barPos, tallDemo, wrapInt, List.length_replicate]
    norm_num
    decide
  refine ⟨hb, ?_, by norm_num⟩
  simp only [rowIndicator, hb]
  simp only [wrapInt, tallDemo, List.length_replicate]
  norm_num

theorem handleText_inv (s : NexaVim) (c : Char) (h : Inv s) :
    ∃ s1, handleText s c = some s1 ∧ Inv s1 := by
  have h2 := h.2.2.1
  have h3 := h.2.2.2
  by_cases hc : c = DEL ∨ c = BS
  · by_cases hx : 0 < s.cursorX
    · refine ⟨_, handleText_erase s c hc h hx, Inv_set s h _ _ (by omega) ?_⟩
      simp only [List.length_append, List.length_take, List.length_drop]
      omega
    · by_cases hy : 0 < s.cursorY
      · exact ⟨_, handleText_join s c hc h (by omega) hy, Inv_join s h hy⟩
      · exact ⟨s, handleText_start s c hc (by omega) (by have := h.1; omega), h⟩
  · by_cases hr : c = CR
    · subst hr
      exact ⟨_, handleText_split s h, Inv_split s h⟩
    · by_cases hp : isprint c = true
      · refine ⟨_, handleText_insert s c hp h, Inv_set s h _ _ (by omega) ?_⟩
        simp only [List.length_append, List.length_take, List.length_drop, List.length_cons]
        omega
      · exact ⟨s, handleText_other s c (fun e => hc (Or.inl e)) (fun e => hc (Or.inr e)) hr
          (by simpa using hp), h⟩

theorem editing_mode_cases (m : EditorMode) :
    (m = EditorMode.USER_FRIENDLY ∨ m = EditorMode.VIM_NORMAL ∨ m = EditorMode.VIM_INSERT) ∨
      m = EditorMode.HOME ∨ m = EditorMode.SETTINGS := by
  cases m <;> simp

theorem handleKey_spec (s : NexaVim) (c : Char) (h : Inv s)
    (hm : s.mode = EditorMode.USER_FRIENDLY ∨ s.mode = EditorMode.VIM_NORMAL ∨
      s.mode = EditorMode.VIM_INSERT) :
    ∃ s1, handleKey s c = some s1 ∧ Inv s1 ∧
      s1 = { s with buffer := s1.buffer, cursorX := s1.cursorX, cursorY := s1.cursorY,
                    mode := s1.mode, running := s1.running } ∧
      (s1.mode = EditorMode.USER_FRIENDLY ∨ s1.mode = EditorMode.VIM_NORMAL ∨
        s1.mode = EditorMode.VIM_INSERT) ∧
      (s.mode = EditorMode.VIM_INSERT → s1.mode = EditorMode.VIM_INSERT ∧ s1.running = s.running) := by
  have htext : handleKey s c = handleText s c →
      ∃ s1, handleKey s c = some s1 ∧ Inv s1 ∧
        s1 = { s with buffer := s1.buffer, cursorX := s1.cursorX, cursorY := s1.cursorY,
                      mode := s1.mode, running := s1.running } ∧
        (s1.mode = EditorMode.USER_FRIENDLY ∨ s1.mode = EditorMode.VIM_NORMAL ∨
          s1.mode = EditorMode.VIM_INSERT) ∧
        (s.mode = EditorMode.VIM_INSERT →
          s1.mode = EditorMode.VIM_INSERT ∧ s1.running = s.running) := by
    intro e
    obtain ⟨s1, e1, i1⟩ := handleText_inv s c h
    have hf := handleText_frame s s1 c e1
    have hmode : s1.mode = s.mode := by rw [hf]
    have hrun : s1.running = s.running := by rw [hf]
    refine ⟨s1, e.trans e1, i1, ?_, by rw [hmode]; exact hm, fun hv => ⟨hmode.trans hv, hrun⟩⟩
    conv_lhs => rw [hf]
    rw [hmode, hrun]
  have hmove : ∀ dx dy, handleKey s c = moveCursor s dx dy → s.mode = EditorMode.VIM_NORMAL →
      ∃ s1, handleKey s c = some s1 ∧ Inv s1 ∧
        s1 = { s with buffer := s1.buffer, cursorX := s1.cursorX, cursorY := s1.cursorY,
                      mode := s1.mode, running := s1.running } ∧
        (s1.mode = EditorMode.USER_FRIENDLY ∨ s1.mode = EditorMode.VIM_NORMAL ∨
          s1.mode = EditorMode.VIM_INSERT) ∧
        (s.mode = EditorMode.VIM_INSERT →
          s1.mode = EditorMode.VIM_INSERT ∧ s1.running = s.running) := by
    intro dx dy e hn
    obtain ⟨y, x, e1, i1⟩ := moveCursor_spec s dx dy h.buffer_ne_nil
    exact ⟨{ s with cursorY := y, cursorX := x }, e.trans e1, i1, rfl, hm,
      fun hv => ⟨hv, rfl⟩⟩
  by_cases hX : c = 'X' ∧ (s.mode = EditorMode.USER_FRIENDLY ∨ s.mode = EditorMode.VIM_NORMAL)
  · refine ⟨{ s with running := false }, by simp [handleKey, hX], h, rfl, hm, ?_⟩
    intro hv
    rcases hX.2 with e | e <;> rw [hv] at e <;> exact absurd e (by decide)
  by_cases hT : s.mode = EditorMode.USER_FRIENDLY ∨ s.mode = EditorMode.VIM_INSERT
  · exact htext (by unfold handleKey; rw [if_neg hX, if_pos hT])
  have hN : s.mode = EditorMode.VIM_NORMAL := by
    rcases hm with e | e | e
    · exact absurd (Or.inl e) hT
    · exact e
    · exact absurd (Or.inr e) hT
  have hbase : handleKey s c =
      if c = 'i' then some { s with mode := EditorMode.VIM_INSERT }
      else if c = 'h' then moveCursor s (-1) 0
      else if c = 'j' then moveCursor s 0 1
      else if c = 'k' then moveCursor s 0 (-1)
      else if c = 'l' then moveCursor s 1 0
      else some s := by
    unfold handleKey
    rw [if_neg hX, if_neg hT, if_pos hN]
  have hNI : s.mode ≠ EditorMode.VIM_INSERT := by rw [hN]; decide
  by_cases hi : c = 'i'
  · exact ⟨{ s with mode := EditorMode.VIM_INSERT }, by rw [hbase, if_pos hi], h, rfl,
      Or.inr (Or.inr rfl), fun hv => absurd hv hNI⟩
  by_cases hh : c = 'h'
  · exact hmove (-1) 0 (by rw [hbase, if_neg hi, if_pos hh]) hN
  by_cases hj : c = 'j'
  · exact hmove 0 1 (by rw [hbase, if_neg hi, if_neg hh, if_pos hj]) hN
  by_cases hk : c = 'k'
  · exact hmove 0 (-1) (by rw [hbase, if_neg hi, if_neg hh, if_neg hj, if_pos hk]) hN
  by_cases hl : c = 'l'
  · exact hmove 1 0 (by rw [hbase, if_neg hi, if_neg hh, if_neg hj, if_neg hk, if_pos hl]) hN
  exact ⟨s, by rw [hbase, if_neg hi, if_neg hh, if_neg hj, if_neg hk, if_neg hl], h, rfl, hm,
    fun hv => absurd hv hNI⟩

theorem handleInput_timeout (env : Env) (s : NexaVim) (rest : List (Option Char)) :
    handleInput env s [] = some (s, []) ∧ handleInput env s (none :: rest) = some (s, rest) := by
  constructor <;> simp [handleInput, read]

theorem handleInput_home (env : Env) (s : NexaVim) (c : Char) (rest : List (Option Char))
    (hH : s.mode = EditorMode.HOME) :
    handleInput env s (some c :: rest) =
      if c = ESC then
        match read rest with
        | (none, inp2) => some (s, inp2)
        | (some _, inp2) =>
          match read inp2 with
          | (none, inp3) => some (s, inp3)
          | (some k, inp3) =>
            some (if k = 'B' then
                { (if k = 'A' then
                    { s with homeSelection := Int.tmod (s.homeSelection + 3) 4 } else s) with
                  homeSelection := Int.tmod ((if k = 'A' then
                    { s with homeSelection := Int.tmod (s.homeSelection + 3) 4 }
                      else s).homeSelection + 1) 4 }
              else (if k = 'A' then
                { s with homeSelection := Int.tmod (s.homeSelection + 3) 4 } else s), inp3)
      else if c = CR then
        some (
          let s1 := if s.homeSelection = 0 then
              { s with buffer := s.buffer ++ [[]], mode := EditorMode.USER_FRIENDLY } else s
          let s2 := if s1.homeSelection = 1 then { s1 with mode := EditorMode.SETTINGS } else s1
          let s3 := if s2.homeSelection = 2 then showHelp s2 else s2
          if s3.homeSelection = 3 then { s3 with running := false } else s3, rest)
      else some (s, rest) := by
  unfold handleInput
  simp only [read]
  rw [if_pos hH]

theorem handleInput_settings (env : Env) (s : NexaVim) (c : Char) (rest : List (Option Char))
    (hT : s.mode = EditorMode.SETTINGS) :
    handleInput env s (some c :: rest) =
      if c = ESC then
        some (
          let k := ((read (read rest).2).1).getD env.junk
          let s1 := if k = 'A' then
              { s with settingsSelection := Int.tmod (s.settingsSelection + 2) 3 } else s
          if k = 'B' then
            { s1 with settingsSelection := Int.tmod (s1.settingsSelection + 1) 3 } else s1,
          (read (read rest).2).2)
      else if c = CR then
        some (
          let s1 := if s.settingsSelection = 0 then
              { s with autoCompletion := !s.autoCompletion } else s
          let s2 := if s1.settingsSelection = 1 then
              { s1 with errorChecking := !s1.errorChecking } else s1
          if s2.settingsSelection = 2 then { s2 with mode := EditorMode.HOME } else s2, rest)
      else some (s, rest) := by
  have hH : s.mode ≠ EditorMode.HOME := by rw [hT]; decide
  unfold handleInput
  simp only [read]
  rw [if_neg hH, if_pos hT]

theorem handleInput_edit (env : Env) (s : NexaVim) (c : Char) (rest : List (Option Char))
    (hm : s.mode = EditorMode.USER_FRIENDLY ∨ s.mode = EditorMode.VIM_NORMAL ∨
      s.mode = EditorMode.VIM_INSERT) :
    handleInput env s (some c :: rest) =
      if c = 'S' ∧ s.mode ≠ EditorMode.VIM_INSERT then
        some ({ s with mode := if s.mode = EditorMode.USER_FRIENDLY then EditorMode.VIM_NORMAL
                               else EditorMode.USER_FRIENDLY }, rest)
      else if c = ESC ∧ s.mode ≠ EditorMode.VIM_INSERT then
        match read rest with
        | (none, inp2) => some ({ saveFile env s with running := false }, inp2)
        | (some next, inp2) =>
          if next = '[' then
            ((((if ((read inp2).1).getD env.junk = 'A' then moveCursor s 0 (-1) else some s).bind
                  (fun s1 => if ((read inp2).1).getD env.junk = 'B' then moveCursor s1 0 1
                    else some s1)).bind
                (fun s2 => if ((read inp2).1).getD env.junk = 'C' then moveCursor s2 1 0
                  else some s2)).bind
              (fun s3 => if ((read inp2).1).getD env.junk = 'D' then moveCursor s3 (-1) 0
                else some s3)).map (fun s4 => (s4, (read inp2).2))
          else (handleKey s c).map (fun s1 => (s1, inp2))
      else (handleKey s c).map (fun s1 => (s1, rest)) := by
  have hH : s.mode ≠ EditorMode.HOME := by
    rcases hm with e | e | e <;> rw [e] <;> decide
  have hT : s.mode ≠ EditorMode.SETTINGS := by
    rcases hm with e | e | e <;> rw [e] <;> decide
  unfold handleInput
  simp only [read]
  rw [if_neg hH, if_neg hT]

theorem fileText_eq_foldr (buf : List (List Char)) :
    fileText buf = buf.foldr (fun line acc => line ++ Char.ofNat 10 :: acc) [] := by
  unfold fileText
  induction buf with
  | nil => rfl
  | cons l rest ih => simp [ih]

theorem saveFile_frame (env : Env) (s : NexaVim) :
    saveFile env s =
      { s with filename := (saveFile env s).filename, written := (saveFile env s).written } := by
  unfold saveFile
  dsimp only
  split_ifs <;> rfl

theorem arrow_chain (s : NexaVim) (k : Char) (hb : s.buffer ≠ []) :
    ∃ y x,
      (((if k = 'A' then moveCursor s 0 (-1) else some s).bind
            (fun s1 => if k = 'B' then moveCursor s1 0 1 else some s1)).bind
          (fun s2 => if k = 'C' then moveCursor s2 1 0 else some s2)).bind
        (fun s3 => if k = 'D' then moveCursor s3 (-1) 0 else some s3) =
        some { s with cursorY := y, cursorX := x } ∧
      (Inv s → Inv { s with cursorY := y, cursorX := x }) := by
  by_cases hA : k = 'A'
  · obtain ⟨y, x, e, i⟩ := moveCursor_spec s 0 (-1) hb
    refine ⟨y, x, ?_, fun _ => i⟩
    subst hA
    simp +decide [e]
  by_cases hB : k = 'B'
  · obtain ⟨y, x, e, i⟩ := moveCursor_spec s 0 1 hb
    refine ⟨y, x, ?_, fun _ => i⟩
    subst hB
    simp +decide [e]
  by_cases hC : k = 'C'
  · obtain ⟨y, x, e, i⟩ := moveCursor_spec s 1 0 hb
    refine ⟨y, x, ?_, fun _ => i⟩
    subst hC
    simp +decide [e]
  by_cases hD : k = 'D'
  · obtain ⟨y, x, e, i⟩ := moveCursor_spec s (-1) 0 hb
    refine ⟨y, x, ?_, fun _ => i⟩
    subst hD
    simp +decide [e]
  exact ⟨s.cursorY, s.cursorX, by simp [hA, hB, hC, hD], fun i => i⟩

theorem handleInput_edit_good (env : Env) (s : NexaVim) (inp : List (Option Char))
    (hm : s.mode = EditorMode.USER_FRIENDLY ∨ s.mode = EditorMode.VIM_NORMAL ∨
      s.mode = EditorMode.VIM_INSERT) (h : Inv s) :
    ∃ s1 inp1, handleInput env s inp = some (s1, inp1) ∧ Inv s1 ∧
      (s1.mode = EditorMode.USER_FRIENDLY ∨ s1.mode = EditorMode.VIM_NORMAL ∨
        s1.mode = EditorMode.VIM_INSERT) ∧
      s1.homeSelection = s.homeSelection ∧ s1.settingsSelection = s.settingsSelection ∧
      s1.autoCompletion = s.autoCompletion ∧ s1.errorChecking = s.errorChecking ∧
      (s.mode = EditorMode.VIM_INSERT →
        s1.mode = EditorMode.VIM_INSERT ∧ s1.running = s.running ∧ s1.written = s.written ∧
          s1.filename = s.filename) := by
  have hstay : ∃ s1 inp1, some (s, inp) = some (s1, inp1) ∧ Inv s1 ∧
      (s1.mode = EditorMode.USER_FRIENDLY ∨ s1.mode = EditorMode.VIM_NORMAL ∨
        s1.mode = EditorMode.VIM_INSERT) ∧
      s1.homeSelection = s.homeSelection ∧ s1.settingsSelection = s.settingsSelection ∧
      s1.autoCompletion = s.autoCompletion ∧ s1.errorChecking = s.errorChecking ∧
      (s.mode = EditorMode.VIM_INSERT →
        s1.mode = EditorMode.VIM_INSERT ∧ s1.running = s.running ∧ s1.written = s.written ∧
          s1.filename = s.filename) :=
    ⟨s, inp, rfl, h, hm, rfl, rfl, rfl, rfl, fun hv => ⟨hv, rfl, rfl, rfl⟩⟩
  have hkey : ∀ (c : Char) (inpT : List (Option Char)),
      ∃ s1 inp1, (handleKey s c).map (fun s1 => (s1, inpT)) = some (s1, inp1) ∧ Inv s1 ∧
        (s1.mode = EditorMode.USER_FRIENDLY ∨ s1.mode = EditorMode.VIM_NORMAL ∨
          s1.mode = EditorMode.VIM_INSERT) ∧
        s1.homeSelection = s.homeSelection ∧ s1.settingsSelection = s.settingsSelection ∧
        s1.autoCompletion = s.autoCompletion ∧ s1.errorChecking = s.errorChecking ∧
        (s.mode = EditorMode.VIM_INSERT →
          s1.mode = EditorMode.VIM_INSERT ∧ s1.running = s.running ∧ s1.written = s.written ∧
            s1.filename = s.filename) := by
    intro c inpT
    obtain ⟨s1, e, i1, hf, hm1, hv1⟩ := handleKey_spec s c h hm
    refine ⟨s1, inpT, by rw [e]; rfl, i1, hm1, by rw [hf], by rw [hf], by rw [hf], by rw [hf],
      fun hv => ⟨(hv1 hv).1, (hv1 hv).2, by rw [hf], by rw [hf]⟩⟩
  cases inp with
  | nil => rw [(handleInput_timeout env s []).1]; exact hstay
  | cons r rest =>
    cases r with
    | none =>
      rw [(handleInput_timeout env s rest).2]
      exact ⟨s, rest, rfl, h, hm, rfl, rfl, rfl, rfl, fun hv => ⟨hv, rfl, rfl, rfl⟩⟩
    | some c =>
      rw [handleInput_edit env s c rest hm]
      by_cases hS : c = 'S' ∧ s.mode ≠ EditorMode.VIM_INSERT
      · rw [if_pos hS]
        refine ⟨_, rest, rfl, h, ?_, rfl, rfl, rfl, rfl, fun hv => absurd hv hS.2⟩
        dsimp only
        split_ifs
        · exact Or.inr (Or.inl rfl)
        · exact Or.inl rfl
      rw [if_neg hS]
      by_cases hE : c = ESC ∧ s.mode ≠ EditorMode.VIM_INSERT
      · rw [if_pos hE]
        rcases hr : read rest with ⟨_ | next, inp2⟩
        · dsimp only
          have hsf := saveFile_frame env s
          refine ⟨_, inp2, rfl, ?_, ?_, ?_, ?_, ?_, ?_, fun hv => absurd hv hE.2⟩
          · rw [hsf]; exact h
          · dsimp only; rw [hsf]; exact hm
          · dsimp only; rw [hsf]
          · dsimp only; rw [hsf]
          · dsimp only; rw [hsf]
          · dsimp only; rw [hsf]
        · dsimp only
          by_cases hb : next = '['
          · rw [if_pos hb]
            obtain ⟨y, x, e, i⟩ := arrow_chain s (((read inp2).1).getD env.junk) h.buffer_ne_nil
            rw [e]
            exact ⟨_, _, rfl, i h, hm, rfl, rfl, rfl, rfl, fun hv => absurd hv hE.2⟩
          · rw [if_neg hb]
            exact hkey c inp2
      · rw [if_neg hE]
        exact hkey c rest

theorem tmod_four (a : Int) (h : 0 ≤ a) : Int.tmod a 4 = a % 4 :=
  Int.tmod_eq_emod h (by decide)

theorem tmod_three (a : Int) (h : 0 ≤ a) : Int.tmod a 3 = a % 3 :=
  Int.tmod_eq_emod h (by decide)

theorem handleInput_home_good (env : Env) (s : NexaVim) (inp : List (Option Char))
    (hH : s.mode = EditorMode.HOME) (h : Good s) :
    ∃ s1 inp1, handleInput env s inp = some (s1, inp1) ∧ Good s1 ∧
      s1.autoCompletion = s.autoCompletion ∧ s1.errorChecking = s.errorChecking := by
  obtain ⟨hhs, hss, hmodes⟩ := h
  have hmenu : s.buffer = [] ∧ s.cursorX = 0 ∧ s.cursorY = 0 := by
    rcases hmodes with ⟨_, hb⟩ | ⟨he, _⟩
    · exact hb
    · rcases he with e | e | e <;> rw [hH] at e <;> exact absurd e (by decide)
  have hgood : Good s := ⟨hhs, hss, Or.inl ⟨Or.inl hH, hmenu⟩⟩
  have hsel : ∀ v : Int, 0 ≤ v → v ≤ 3 → Good { s with homeSelection := v } :=
    fun v h0 h3 => ⟨⟨h0, h3⟩, hss, Or.inl ⟨Or.inl hH, hmenu⟩⟩
  cases inp with
  | nil => exact ⟨s, [], (handleInput_timeout env s []).1, hgood, rfl, rfl⟩
  | cons r rest =>
    cases r with
    | none => exact ⟨s, rest, (handleInput_timeout env s rest).2, hgood, rfl, rfl⟩
    | some c =>
      rw [handleInput_home env s c rest hH]
      by_cases hE : c = ESC
      · rw [if_pos hE]
        rcases hr1 : read rest with ⟨_ | b1, inp2⟩
        · exact ⟨s, inp2, rfl, hgood, rfl, rfl⟩
        · dsimp only
          rcases hr2 : read inp2 with ⟨_ | k, inp3⟩
          · exact ⟨s, inp3, rfl, hgood, rfl, rfl⟩
          · dsimp only
            by_cases hA : k = 'A'
            · have hB : k ≠ 'B' := by rw [hA]; decide
              rw [if_neg hB, if_pos hA]
              refine ⟨_, inp3, rfl, hsel _ ?_ ?_, rfl, rfl⟩
              · rw [tmod_four _ (by omega)]; omega
              · rw [tmod_four _ (by omega)]; omega
            · by_cases hB : k = 'B'
              · rw [if_pos hB, if_neg hA]
                refine ⟨_, inp3, rfl, hsel _ ?_ ?_, rfl, rfl⟩
                · rw [tmod_four _ (by omega)]; omega
                · rw [tmod_four _ (by omega)]; omega
              · rw [if_neg hB, if_neg hA]
                exact ⟨s, inp3, rfl, hgood, rfl, rfl⟩
      · rw [if_neg hE]
        by_cases hC : c = CR
        · rw [if_pos hC]
          have hcases : s.homeSelection = 0 ∨ s.homeSelection = 1 ∨ s.homeSelection = 2 ∨
              s.homeSelection = 3 := by omega
          rcases hcases with e | e | e | e
          · refine ⟨{ s with buffer := s.buffer ++ [[]], mode := EditorMode.USER_FRIENDLY }, rest,
              by simp [e, showHelp], ?_, rfl, rfl⟩
            refine ⟨hhs, hss, Or.inr ⟨Or.inl rfl, ?_⟩⟩
            unfold Inv
            simp [hmenu.1, hmenu.2.1, hmenu.2.2]
          · exact ⟨{ s with mode := EditorMode.SETTINGS }, rest, by simp [e, showHelp],
              ⟨hhs, hss, Or.inl ⟨Or.inr rfl, hmenu⟩⟩, rfl, rfl⟩
          · exact ⟨s, rest, by simp [e, showHelp], hgood, rfl, rfl⟩
          · exact ⟨{ s with running := false }, rest, by simp [e, showHelp],
              ⟨hhs, hss, Or.inl ⟨Or.inl hH, hmenu⟩⟩, rfl, rfl⟩
        · rw [if_neg hC]
          exact ⟨s, rest, rfl, hgood, rfl, rfl⟩

theorem handleInput_settings_good (env : Env) (s : NexaVim) (inp : List (Option Char))
    (hT : s.mode = EditorMode.SETTINGS) (h : Good s) :
    ∃ s1 inp1, handleInput env s inp = some (s1, inp1) ∧ Good s1 := by
  obtain ⟨hhs, hss, hmodes⟩ := h
  have hmenu : s.buffer = [] ∧ s.cursorX = 0 ∧ s.cursorY = 0 := by
    rcases hmodes with ⟨_, hb⟩ | ⟨he, _⟩
    · exact hb
    · rcases he with e | e | e <;> rw [hT] at e <;> exact absurd e (by decide)
  have hgood : Good s := ⟨hhs, hss, Or.inl ⟨Or.inr hT, hmenu⟩⟩
  have hsel : ∀ v : Int, 0 ≤ v → v ≤ 2 → Good { s with settingsSelection := v } :=
    fun v h0 h2 => ⟨hhs, ⟨h0, h2⟩, Or.inl ⟨Or.inr hT, hmenu⟩⟩
  cases inp with
  | nil => exact ⟨s, [], (handleInput_timeout env s []).1, hgood⟩
  | cons r rest =>
    cases r with
    | none => exact ⟨s, rest, (handleInput_timeout env s rest).2, hgood⟩
    | some c =>
      rw [handleInput_settings env s c rest hT]
      by_cases hE : c = ESC
      · rw [if_pos hE]
        dsimp only
        by_cases hA : ((read (read rest).2).1).getD env.junk = 'A'
        · have hB : ((read (read rest).2).1).getD env.junk ≠ 'B' := by rw [hA]; decide
          rw [if_neg hB, if_pos hA]
          refine ⟨_, _, rfl, hsel _ ?_ ?_⟩
          · rw [tmod_three _ (by omega)]; omega
          · rw [tmod_three _ (by omega)]; omega
        · by_cases hB : ((read (read rest).2).1).getD env.junk = 'B'
          · rw [if_pos hB, if_neg hA]
            refine ⟨_, _, rfl, hsel _ ?_ ?_⟩
            · rw [tmod_three _ (by omega)]; omega
            · rw [tmod_three _ (by omega)]; omega
          · rw [if_neg hB, if_neg hA]
            exact ⟨s, _, rfl, hgood⟩
      · rw [if_neg hE]
        by_cases hC : c = CR
        · rw [if_pos hC]
          have hcases : s.settingsSelection = 0 ∨ s.settingsSelection = 1 ∨
              s.settingsSelection = 2 := by omega
          rcases hcases with e | e | e
          · exact ⟨{ s with autoCompletion := !s.autoCompletion }, rest, by simp [e],
              ⟨hhs, hss, Or.inl ⟨Or.inr hT, hmenu⟩⟩⟩
          · exact ⟨{ s with errorChecking := !s.errorChecking }, rest, by simp [e],
              ⟨hhs, hss, Or.inl ⟨Or.inr hT, hmenu⟩⟩⟩
          · exact ⟨{ s with mode := EditorMode.HOME }, rest, by simp [e],
              ⟨hhs, hss, Or.inl ⟨Or.inl rfl, hmenu⟩⟩⟩
        · rw [if_neg hC]
          exact ⟨s, rest, rfl, hgood⟩

theorem handleInput_good (env : Env) (s : NexaVim) (inp : List (Option Char)) (h : Good s) :
    ∃ s1 inp1, handleInput env s inp = some (s1, inp1) ∧ Good s1 ∧
      ((s.mode = EditorMode.USER_FRIENDLY ∨ s.mode = EditorMode.VIM_NORMAL ∨
          s.mode = EditorMode.VIM_INSERT) →
        (s1.mode = EditorMode.USER_FRIENDLY ∨ s1.mode = EditorMode.VIM_NORMAL ∨
          s1.mode = EditorMode.VIM_INSERT)) := by
  rcases editing_mode_cases s.mode with he | hH | hT
  · have hinv : Inv s := by
      rcases h.2.2 with ⟨hm, _⟩ | ⟨_, hi⟩
      · rcases hm with e | e <;> rcases he with e1 | e1 | e1 <;> rw [e] at e1 <;>
          exact absurd e1 (by decide)
      · exact hi
    obtain ⟨s1, inp1, e, i1, hm1, hs1, hs2, _⟩ := handleInput_edit_good env s inp he hinv
    exact ⟨s1, inp1, e, ⟨by rw [hs1]; exact h.1, by rw [hs2]; exact h.2.1, Or.inr ⟨hm1, i1⟩⟩,
      fun _ => hm1⟩
  · obtain ⟨s1, inp1, e, g1, _⟩ := handleInput_home_good env s inp hH h
    refine ⟨s1, inp1, e, g1, fun he => ?_⟩
    rcases he with e1 | e1 | e1 <;> rw [hH] at e1 <;> exact absurd e1 (by decide)
  · obtain ⟨s1, inp1, e, g1⟩ := handleInput_settings_good env s inp hT h
    refine ⟨s1, inp1, e, g1, fun he => ?_⟩
    rcases he with e1 | e1 | e1 <;> rw [hT] at e1 <;> exact absurd e1 (by decide)

theorem render_frame (s : NexaVim) : render s = { s with rowOffset := (render s).rowOffset } := by
  unfold render
  split_ifs
  · rfl
  · rfl
  · exact renderEditor_frame s

theorem render_good (s : NexaVim) (h : Good s) : Good (render s) := by
  rw [render_frame]
  exact h

theorem run_invariant (envs : Nat → Env) (P : NexaVim → Prop)
    (hrender : ∀ s, P s → P (render s))
    (hstep : ∀ env s inp, P s → ∃ s1 inp1, handleInput env s inp = some (s1, inp1) ∧ P s1) :
    ∀ (n : Nat) (s : NexaVim) (inp : List (Option Char)), P s →
      ∃ s1, run envs n s inp = some s1 ∧ P s1 := by
  intro n
  induction n with
  | zero => intro s inp h; exact ⟨s, rfl, h⟩
  | succ n ih =>
    intro s inp h
    by_cases hr : s.running = true
    · obtain ⟨s1, inp1, e, h1⟩ := hstep (envs n) (render s) inp (hrender s h)
      obtain ⟨s2, e2, h2⟩ := ih s1 inp1 h1
      exact ⟨s2, by simp only [run, hr, if_true, e]; exact e2, h2⟩
    · exact ⟨s, by simp [run, hr], h⟩

theorem create_good (fn : List Char) (fileLines : List (List Char)) (rows cols : Int) :
    Good (create fn fileLines rows cols) ∧
      (fn ≠ [] → (create fn fileLines rows cols).mode = EditorMode.USER_FRIENDLY) := by
  unfold create
  dsimp only
  by_cases hf : fn = []
  · rw [if_pos hf]
    exact ⟨⟨by dsimp only; omega, by dsimp only; omega, Or.inl ⟨Or.inl rfl, rfl, rfl, rfl⟩⟩,
      fun h => absurd hf h⟩
  · rw [if_neg hf]
    refine ⟨⟨by dsimp only; omega, by dsimp only; omega, Or.inr ⟨Or.inl rfl, ?_⟩⟩, fun _ => rfl⟩
    unfold Inv
    dsimp only
    by_cases hl : fileLines = []
    · rw [if_pos hl]
      decide
    · rw [if_neg hl]
      have hpos : 0 < fileLines.length := List.length_pos.mpr hl
      refine ⟨le_refl _, by omega, le_refl _, ?_⟩
      exact Int.ofNat_nonneg _

theorem handleKey_frame (s s1 : NexaVim) (c : Char) (h : handleKey s c = some s1) :
    s1 = { s with buffer := s1.buffer, cursorX := s1.cursorX, cursorY := s1.cursorY,
                  mode := s1.mode, running := s1.running } := by
  have htext : ∀ t, handleText s c = some t →
      t = { s with buffer := t.buffer, cursorX := t.cursorX, cursorY := t.cursorY,
                   mode := t.mode, running := t.running } := by
    intro t e
    have hf := handleText_frame s t c e
    have hmode : t.mode = s.mode := by rw [hf]
    have hrun : t.running = s.running := by rw [hf]
    conv_lhs => rw [hf]
    rw [hmode, hrun]
  have hmove : ∀ dx dy t, moveCursor s dx dy = some t →
      t = { s with buffer := t.buffer, cursorX := t.cursorX, cursorY := t.cursorY,
                   mode := t.mode, running := t.running } := by
    intro dx dy t e
    have hf := moveCursor_frame s t dx dy e
    have hmode : t.mode = s.mode := by rw [hf]
    have hrun : t.running = s.running := by rw [hf]
    have hbuf : t.buffer = s.buffer := by rw [hf]
    conv_lhs => rw [hf]
    rw [hmode, hrun, hbuf]
  unfold handleKey at h
  split_ifs at h
  · simp only [Option.some.injEq] at h; subst h; rfl
  · exact htext s1 h
  · simp only [Option.some.injEq] at h; subst h; rfl
  · exact hmove _ _ s1 h
  · exact hmove _ _ s1 h
  · exact hmove _ _ s1 h
  · exact hmove _ _ s1 h
  · simp only [Option.some.injEq] at h; subst h; rfl
  · simp only [Option.some.injEq] at h; subst h; rfl

theorem arrow_chain_frame (s s1 : NexaVim) (k : Char)
    (h : (((if k = 'A' then moveCursor s 0 (-1) else some s).bind
            (fun s1 => if k = 'B' then moveCursor s1 0 1 else some s1)).bind
          (fun s2 => if k = 'C' then moveCursor s2 1 0 else some s2)).bind
        (fun s3 => if k = 'D' then moveCursor s3 (-1) 0 else some s3) = some s1) :
    s1 = { s with cursorX := s1.cursorX, cursorY := s1.cursorY } := by
  have hmove : ∀ dx dy t, moveCursor s dx dy = some t →
      t = { s with cursorX := t.cursorX, cursorY := t.cursorY } := by
    intro dx dy t e
    exact moveCursor_frame s t dx dy e
  by_cases hA : k = 'A'
  · subst hA
    simp +decide only [if_true, if_false, Option.bind_eq_some, Option.some.injEq,
      exists_eq_right] at h
    exact hmove _ _ s1 h
  by_cases hB : k = 'B'
  · subst hB
    simp +decide only [if_true, if_false, Option.bind_eq_some, Option.some.injEq,
      exists_eq_right, Option.some_bind] at h
    exact hmove _ _ s1 h
  by_cases hC : k = 'C'
  · subst hC
    simp +decide only [if_true, if_false, Option.bind_eq_some, Option.some.injEq,
      exists_eq_right, Option.some_bind] at h
    exact hmove _ _ s1 h
  by_cases hD : k = 'D'
  · subst hD
    simp +decide only [if_true, if_false, Option.bind_eq_some, Option.some.injEq,
      exists_eq_right, Option.some_bind] at h
    exact hmove _ _ s1 h
  simp only [hA, hB, hC, hD, if_false, Option.some_bind, Option.some.injEq] at h
  subst h
  rfl

theorem handleInput_toggles_frame (env : Env) (s s1 : NexaVim) (inp inp1 : List (Option Char))
    (hT : s.mode ≠ EditorMode.SETTINGS) (h : handleInput env s inp = some (s1, inp1)) :
    s1.autoCompletion = s.autoCompletion ∧ s1.errorChecking = s.errorChecking := by
  have hkey : ∀ (c : Char) (inpT : List (Option Char)),
      (handleKey s c).map (fun t => (t, inpT)) = some (s1, inp1) →
      s1.autoCompletion = s.autoCompletion ∧ s1.errorChecking = s.errorChecking := by
    intro c inpT e
    rcases hk : handleKey s c with _ | t
    · rw [hk] at e; simp at e
    · rw [hk] at e
      simp only [Option.map_some', Option.some.injEq, Prod.mk.injEq] at e
      have hf := handleKey_frame s t c hk
      rw [← e.1, hf]
      exact ⟨rfl, rfl⟩
  cases inp with
  | nil =>
    rw [(handleInput_timeout env s []).1] at h
    simp only [Option.some.injEq, Prod.mk.injEq] at h
    rw [← h.1]; exact ⟨rfl, rfl⟩
  | cons r rest =>
    cases r with
    | none =>
      rw [(handleInput_timeout env s rest).2] at h
      simp only [Option.some.injEq, Prod.mk.injEq] at h
      rw [← h.1]; exact ⟨rfl, rfl⟩
    | some c =>
      rcases editing_mode_cases s.mode with he | hH | hT'
      · rw [handleInput_edit env s c rest he] at h
        by_cases hS : c = 'S' ∧ s.mode ≠ EditorMode.VIM_INSERT
        · rw [if_pos hS] at h
          simp only [Option.some.injEq, Prod.mk.injEq] at h
          rw [← h.1]; exact ⟨rfl, rfl⟩
        rw [if_neg hS] at h
        by_cases hE : c = ESC ∧ s.mode ≠ EditorMode.VIM_INSERT
        · rw [if_pos hE] at h
          rcases hr : read rest with ⟨_ | next, inp2⟩
          · rw [hr] at h
            simp only [Option.some.injEq, Prod.mk.injEq] at h
            rw [← h.1, saveFile_frame]; exact ⟨rfl, rfl⟩
          · rw [hr] at h
            dsimp only at h
            by_cases hb : next = '['
            · rw [if_pos hb] at h
              simp only [Option.map_eq_some', Prod.mk.injEq] at h
              obtain ⟨t, ht, e1, _⟩ := h
              have hf := arrow_chain_frame s t _ ht
              rw [← e1, hf]; exact ⟨rfl, rfl⟩
            · rw [if_neg hb] at h
              exact hkey c inp2 h
        · rw [if_neg hE] at h
          exact hkey c rest h
      · rw [handleInput_home env s c rest hH] at h
        by_cases hE : c = ESC
        · rw [if_pos hE] at h
          rcases hr1 : read rest with ⟨_ | b1, inp2⟩
          · rw [hr1] at h
            simp only [Option.some.injEq, Prod.mk.injEq] at h
            rw [← h.1]; exact ⟨rfl, rfl⟩
          · rw [hr1] at h
            dsimp only at h
            rcases hr2 : read inp2 with ⟨_ | k, inp3⟩
            · rw [hr2] at h
              simp only [Option.some.injEq, Prod.mk.injEq] at h
              rw [← h.1]; exact ⟨rfl, rfl⟩
            · rw [hr2] at h
              simp only [Option.some.injEq, Prod.mk.injEq] at h
              rw [← h.1]
              split_ifs <;> exact ⟨rfl, rfl⟩
        rw [if_neg hE] at h
        by_cases hC : c = CR
        · rw [if_pos hC] at h
          simp only [Option.some.injEq, Prod.mk.injEq] at h
          rw [← h.1]
          dsimp only [showHelp]
          split_ifs <;> exact ⟨rfl, rfl⟩
        · rw [if_neg hC] at h
          simp only [Option.some.injEq, Prod.mk.injEq] at h
          rw [← h.1]; exact ⟨rfl, rfl⟩
      · exact absurd hT' hT

theorem handleInput_home_arrow (env : Env) (s : NexaVim) (b k : Char)
    (rest : List (Option Char)) (hH : s.mode = EditorMode.HOME) (h0 : 0 ≤ s.homeSelection) :
    (k = 'A' → handleInput env s (some ESC :: some b :: some k :: rest) =
      some ({ s with homeSelection := (s.homeSelection + 3) % 4 }, rest)) ∧
    (k = 'B' → handleInput env s (some ESC :: some b :: some k :: rest) =
      some ({ s with homeSelection := (s.homeSelection + 1) % 4 }, rest)) := by
  rw [handleInput_home env s ESC _ hH, if_pos rfl]
  simp only [read]
  constructor
  · intro hk
    subst hk
    rw [if_neg (by decide), if_pos rfl, tmod_four _ (by omega)]
  · intro hk
    subst hk
    rw [if_pos rfl, if_neg (by decide), tmod_four _ (by omega)]

theorem handleInput_settings_arrow (env : Env) (s : NexaVim) (b k : Char)
    (rest : List (Option Char)) (hT : s.mode = EditorMode.SETTINGS)
    (h0 : 0 ≤ s.settingsSelection) :
    (k = 'A' → handleInput env s (some ESC :: some b :: some k :: rest) =
      some ({ s with settingsSelection := (s.settingsSelection + 2) % 3 }, rest)) ∧
    (k = 'B' → handleInput env s (some ESC :: some b :: some k :: rest) =
      some ({ s with settingsSelection := (s.settingsSelection + 1) % 3 }, rest)) := by
  rw [handleInput_settings env s ESC _ hT, if_pos rfl]
  simp only [read, Option.getD_some]
  constructor
  · intro hk
    subst hk
    rw [if_neg (by decide), if_pos rfl, tmod_three _ (by omega)]
  · intro hk
    subst hk
    rw [if_pos rfl, if_neg (by decide), tmod_three _ (by omega)]

theorem home_round_trip (env : Env) (s : NexaVim) (k1 k2 : Char) (a1 a2 : Int)
    (hr : s.running = true)
    (h1 : ∀ t : NexaVim, t.mode = EditorMode.HOME → 0 ≤ t.homeSelection →
      ∀ rest, handleInput env t (some ESC :: some '[' :: some k1 :: rest) =
        some ({ t with homeSelection := (t.homeSelection + a1) % 4 }, rest))
    (h2 : ∀ t : NexaVim, t.mode = EditorMode.HOME → 0 ≤ t.homeSelection →
      ∀ rest, handleInput env t (some ESC :: some '[' :: some k2 :: rest) =
        some ({ t with homeSelection := (t.homeSelection + a2) % 4 }, rest))
    (ha : (a1 + a2) % 4 = 0)
    (hH : s.mode = EditorMode.HOME) (h0 : 0 ≤ s.homeSelection) (h3 : s.homeSelection ≤ 3) :
    handleInputs env s (keys [ESC, '[', k1, ESC, '[', k2]) = some s := by
  have e : keys [ESC, '[', k1, ESC, '[', k2] =
      some ESC :: some '[' :: some k1 :: [some ESC, some '[', some k2] := rfl
  rw [e, handleInputs_cons env s _ _ hr, h1 s hH h0, Option.some_bind]
  dsimp only
  rw [handleInputs_cons env { s with homeSelection := (s.homeSelection + a1) % 4 } _ _ hr,
    h2 { s with homeSelection := (s.homeSelection + a1) % 4 } hH
      (Int.emod_nonneg _ (by decide)), Option.some_bind]
  dsimp only
  have hsel : ((s.homeSelection + a1) % 4 + a2) % 4 = s.homeSelection := by omega
  rw [hsel]
  rfl

theorem settings_round_trip (env : Env) (s : NexaVim) (k1 k2 : Char) (a1 a2 : Int)
    (hr : s.running = true)
    (h1 : ∀ t : NexaVim, t.mode = EditorMode.SETTINGS → 0 ≤ t.settingsSelection →
      ∀ rest, handleInput env t (some ESC :: some '[' :: some k1 :: rest) =
        some ({ t with settingsSelection := (t.settingsSelection + a1) % 3 }, rest))
    (h2 : ∀ t : NexaVim, t.mode = EditorMode.SETTINGS → 0 ≤ t.settingsSelection →
      ∀ rest, handleInput env t (some ESC :: some '[' :: some k2 :: rest) =
        some ({ t with settingsSelection := (t.settingsSelection + a2) % 3 }, rest))
    (ha : (a1 + a2) % 3 = 0)
    (hT : s.mode = EditorMode.SETTINGS) (h0 : 0 ≤ s.settingsSelection)
    (h3 : s.settingsSelection ≤ 2) :
    handleInputs env s (keys [ESC, '[', k1, ESC, '[', k2]) = some s := by
  have e : keys [ESC, '[', k1, ESC, '[', k2] =
      some ESC :: some '[' :: some k1 :: [some ESC, some '[', some k2] := rfl
  rw [e, handleInputs_cons env s _ _ hr, h1 s hT h0, Option.some_bind]
  dsimp only
  rw [handleInputs_cons env { s with settingsSelection := (s.settingsSelection + a1) % 3 } _ _ hr,
    h2 { s with settingsSelection := (s.settingsSelection + a1) % 3 } hT
      (Int.emod_nonneg _ (by decide)), Option.some_bind]
  dsimp only
  have hsel : ((s.settingsSelection + a1) % 3 + a2) % 3 = s.settingsSelection := by omega
  rw [hsel]
  rfl

theorem typedAtCursor_nil (s : NexaVim) (h : Inv s) : typedAtCursor s [] = s := by
  have h0 := h.1
  have h1 := h.2.1
  unfold typedAtCursor
  simp only [List.nil_append, List.take_append_drop, List.length_nil, Nat.cast_zero, add_zero]
  rw [set_getD_self _ _ (by omega)]

theorem typedAtCursor_cons (s : NexaVim) (c : Char) (cs : List Char) (h : Inv s) :
    typedAtCursor (typedAtCursor s [c]) cs = typedAtCursor s (c :: cs) := by
  have h0 := h.1
  have h1 := h.2.1
  have h2 := h.2.2.1
  have h3 := h.2.2.2
  have hlt : s.cursorY.toNat < s.buffer.length := by omega
  unfold typedAtCursor
  dsimp only
  have e1 : (s.cursorX + ([c].length : Nat)).toNat =
      ((s.buffer.getD s.cursorY.toNat []).take s.cursorX.toNat).length + 1 := by
    simp only [List.length_take, List.length_singleton, Nat.cast_one]
    omega
  rw [getD_set_self _ _ hlt, e1]
  simp only [List.singleton_append, take_succ_append_cons, drop_succ_append_cons, List.set_set,
    List.append_assoc, List.length_cons, List.length_singleton, List.length_nil]
  congr 1
  push_cast
  omega

theorem typedAtCursor_inv (s : NexaVim) (cs : List Char) (h : Inv s) :
    Inv (typedAtCursor s cs) := by
  have h2 := h.2.2.1
  have h3 := h.2.2.2
  refine Inv_set s h _ _ (by omega) ?_
  simp only [List.length_append, List.length_take, List.length_drop]
  omega

theorem typing_inserts (env : Env) (cs : List Char) :
    ∀ (s : NexaVim) (tail : List (Option Char)),
      s.mode = EditorMode.USER_FRIENDLY → Inv s → s.running = true →
      (∀ c ∈ cs, isprint c = true ∧ c ≠ 'S' ∧ c ≠ 'X' ∧
        (s.autoCompletion = true → c ≠ '(' ∧ c ≠ '{' ∧ c ≠ '[' ∧ c ≠ '"')) →
      handleInputs env s (keys cs ++ tail) = handleInputs env (typedAtCursor s cs) tail := by
  induction cs with
  | nil =>
    intro s tail _ h _ _
    rw [typedAtCursor_nil s h]
    rfl
  | cons c cs ih =>
    intro s tail hm h hr hcs
    obtain ⟨hp, hS, hX, hopen⟩ := hcs c (List.mem_cons_self _ _)
    have hE : c ≠ ESC := (isprint_ne_control hp).2.2.2
    have hno := autoCloser_eq_nil s.autoCompletion c hopen
    have hins := handleText_insert s c hp h
    rw [hno] at hins
    have hshape : keys (c :: cs) ++ tail = some c :: (keys cs ++ tail) := rfl
    rw [hshape, handleInputs_step env s (typedAtCursor s [c]) (some c) _ hr
      (by
        rw [handleInput_text_friendly env s c _ hm hS hE hX, hins]
        simp [typedAtCursor])]
    rw [ih (typedAtCursor s [c]) tail hm (typedAtCursor_inv s [c] h) hr
      (fun d hd => hcs d (List.mem_cons_of_mem _ hd)), typedAtCursor_cons s c cs h]

/-! ## C1 -/

/-- C1: on a buffer with at least one line and from a cursor within bounds, every
finite sequence of `moveCursor(dx, dy)` calls with arbitrary integers runs
without an out-of-range access, and after each call (after every initial part of
the sequence) the cursor row indexes a line of the unchanged buffer and the
cursor column lies within that line. -/
theorem moveCursor_sequence_keeps_bounds (s : NexaVim) (moves : List (Int × Int)) (k : Nat)
    (hinv : Inv s) :
    ∃ s1, moveCursors s (moves.take k) = some s1 ∧ s1.buffer = s.buffer ∧
      0 ≤ s1.cursorY ∧ s1.cursorY ≤ (s1.buffer.length : Int) - 1 ∧
      0 ≤ s1.cursorX ∧ s1.cursorX ≤ (s1.buffer.getD s1.cursorY.toNat []).length := by
  by_cases hm : moves.take k = []
  · rw [hm]
    exact ⟨s, rfl, rfl, hinv.1, by have := hinv.2.1; omega, hinv.2.2.1, hinv.2.2.2⟩
  · obtain ⟨y, x, h1, h2⟩ := moveCursors_spec (moves.take k) s hinv.buffer_ne_nil hm
    exact ⟨_, h1, rfl, h2.1, by have := h2.2.1; simp only at this ⊢; omega, h2.2.2.1, h2.2.2.2⟩

/-- C1 at a concrete input: two moves far beyond the buffer, from `demo`. -/
theorem moveCursor_sequence_keeps_bounds_witness :
    Inv demo ∧
    ∃ s1, moveCursors demo ([((7 : Int), (1 : Int)), (-3, -5)].take 2) = some s1 ∧
      s1.buffer = demo.buffer ∧
      0 ≤ s1.cursorY ∧ s1.cursorY ≤ (s1.buffer.length : Int) - 1 ∧
      0 ≤ s1.cursorX ∧ s1.cursorX ≤ (s1.buffer.getD s1.cursorY.toNat []).length :=
  ⟨by decide, moveCursor_sequence_keeps_bounds demo [(7, 1), (-3, -5)] 2 (by decide)⟩

/-! ## C2 -/

/-- C2: from every state that has at least one line and whose cursor is within
bounds, `handleText(c)` for every input byte `c` (insertion with or without
auto-pairing, backspace for 127 and 8, split for 13, no effect otherwise) runs
without an out-of-range buffer or string index and yields a state that again has
at least one line and a cursor within bounds. -/
theorem handleText_keeps_bounds (s : NexaVim) (c : Char) (h : Inv s) :
    ∃ s1, handleText s c = some s1 ∧ 0 < s1.buffer.length ∧
      0 ≤ s1.cursorY ∧ s1.cursorY < s1.buffer.length ∧
      0 ≤ s1.cursorX ∧ s1.cursorX ≤ (s1.buffer.getD s1.cursorY.toNat []).length := by
  suffices hs : ∃ s1, handleText s c = some s1 ∧ Inv s1 by
    obtain ⟨s1, e, i1⟩ := hs
    exact ⟨s1, e, List.length_pos.mpr i1.buffer_ne_nil, i1⟩
  have h2 := h.2.2.1
  have h3 := h.2.2.2
  by_cases hc : c = DEL ∨ c = BS
  · by_cases hx : 0 < s.cursorX
    · refine ⟨_, handleText_erase s c hc h hx, Inv_set s h _ _ (by omega) ?_⟩
      simp only [List.length_append, List.length_take, List.length_drop]
      omega
    · by_cases hy : 0 < s.cursorY
      · exact ⟨_, handleText_join s c hc h (by omega) hy, Inv_join s h hy⟩
      · exact ⟨s, handleText_start s c hc (by omega) (by have := h.1; omega), h⟩
  · by_cases hr : c = CR
    · subst hr
      exact ⟨_, handleText_split s h, Inv_split s h⟩
    · by_cases hp : isprint c = true
      · refine ⟨_, handleText_insert s c hp h, Inv_set s h _ _ (by omega) ?_⟩
        simp only [List.length_append, List.length_take, List.length_drop, List.length_cons]
        omega
      · exact ⟨s, handleText_other s c (fun e => hc (Or.inl e)) (fun e => hc (Or.inr e)) hr
          (by simpa using hp), h⟩

/-- C2 at a concrete input: Enter in the state `demo`. -/
theorem handleText_keeps_bounds_witness :
    Inv demo ∧
    ∃ s1, handleText demo CR = some s1 ∧ 0 < s1.buffer.length ∧
      0 ≤ s1.cursorY ∧ s1.cursorY < s1.buffer.length ∧
      0 ≤ s1.cursorX ∧ s1.cursorX ≤ (s1.buffer.getD s1.cursorY.toNat []).length :=
  ⟨by decide, handleText_keeps_bounds demo CR (by decide)⟩

/-! ## C3 -/

/-- C3: when the terminal leaves at least one visible row
(`screenRows - 2 ≥ 1`), whatever the row offset was before, the scroll rule at
the head of `renderEditor` leaves `rowOffset ≤ cursorY < rowOffset + visibleRows`
(for every `cursorY`, the non-negative ones of the claim included); it changes
neither the cursor row nor the terminal height. -/
theorem renderEditor_scroll_invariant (s : NexaVim) (hv : 1 ≤ s.screenRows - 2) :
    (renderEditor s).rowOffset ≤ (renderEditor s).cursorY ∧
      (renderEditor s).cursorY < (renderEditor s).rowOffset + ((renderEditor s).screenRows - 2) ∧
      (renderEditor s).cursorY = s.cursorY ∧ (renderEditor s).screenRows = s.screenRows := by
  unfold renderEditor
  by_cases h1 : s.cursorY ≥ s.rowOffset + s.screenRows - 2
  · rw [if_pos h1]
    dsimp only
    rw [if_neg (by omega)]
    dsimp only
    omega
  · rw [if_neg h1]
    dsimp only
    by_cases h2 : s.cursorY < s.rowOffset
    · rw [if_pos h2]
      dsimp only
      omega
    · rw [if_neg h2]
      omega

/-- C3 at a concrete input: the cursor on row 30 of a 24-row terminal, the
viewport at the top. -/
theorem renderEditor_scroll_invariant_witness :
    1 ≤ ({ demo with cursorY := 30 } : NexaVim).screenRows - 2 ∧
    ((renderEditor { demo with cursorY := 30 }).rowOffset ≤
        (renderEditor { demo with cursorY := 30 }).cursorY ∧
      (renderEditor { demo with cursorY := 30 }).cursorY <
        (renderEditor { demo with cursorY := 30 }).rowOffset +
          ((renderEditor { demo with cursorY := 30 }).screenRows - 2) ∧
      (renderEditor { demo with cursorY := 30 }).cursorY =
        ({ demo with cursorY := 30 } : NexaVim).cursorY ∧
      (renderEditor { demo with cursorY := 30 }).screenRows =
        ({ demo with cursorY := 30 } : NexaVim).screenRows) :=
  ⟨by decide, renderEditor_scroll_invariant { demo with cursorY := 30 } (by decide)⟩

/-! ## C4 -/

/-- C4: from every state within bounds, `handleText(13)` (split the line at the
cursor) followed at once by `handleText(c)` for a backspace byte `c` (127 or 8)
gives back exactly the state it started from: the same lines, the same cursor
column and row, and every other field as it was. -/
theorem split_then_backspace_restores (s : NexaVim) (c : Char) (hc : c = DEL ∨ c = BS)
    (h : Inv s) :
    (handleText s CR).bind (fun s1 => handleText s1 c) = some s := by
  have h0 := h.1
  have h2 := h.2.2.1
  have h3 := h.2.2.2
  obtain ⟨pre, post, hb, hlen⟩ := h.decompose
  rw [handleText_split s h, Option.some_bind, handleText_join _ c hc (Inv_split s h) rfl
    (by simp only; omega)]
  have e1 : (s.cursorY + 1).toNat = pre.length + 1 := by omega
  have e2 : pre.length + 1 - 1 = pre.length := by omega
  generalize s.buffer.getD s.cursorY.toNat [] = line at *
  simp only [e1, e2, ← hlen]
  rw [hb, set_length_append_cons, take_succ_append_cons, drop_succ_append_cons]
  simp only [List.append_assoc, List.singleton_append, getD_length_append_cons]
  have e3 : (pre ++ List.take s.cursorX.toNat line :: List.drop s.cursorX.toNat line :: post).getD
      (pre.length + 1) [] = List.drop s.cursorX.toNat line := by
    have := getD_length_append_cons (pre ++ [List.take s.cursorX.toNat line]) post
      (List.drop s.cursorX.toNat line)
    simpa using this
  rw [e3]
  have e4 := split_join_buffer pre post line s.cursorX.toNat
  rw [set_length_append_cons, take_succ_append_cons, drop_succ_append_cons] at e4
  simp only [List.append_assoc, List.singleton_append] at e4
  rw [e4, ← hb]
  have e5 : ((List.take s.cursorX.toNat line).length : Int) = s.cursorX := by
    simp only [List.length_take]
    omega
  rw [e5]
  simp

/-- C4 at a concrete input: Enter then DEL in the state `demo`. -/
theorem split_then_backspace_restores_witness :
    (DEL = DEL ∨ DEL = BS) ∧ Inv demo ∧
    (handleText demo CR).bind (fun s1 => handleText s1 DEL) = some demo :=
  ⟨by decide, by decide, split_then_backspace_restores demo DEL (by decide) (by decide)⟩

/-! ## C5 -/

/-- C5, as stated, fails.  With the default settings (auto-completion on) typing
the printable `(` in `USER_FRIENDLY` mode on the line `ab` and then one backspace
leaves `ab)`.  With auto-completion off, the printable keys `S`, `S` toggle the
mode twice and insert nothing, so the two backspaces that follow erase `ab`.
And the printable `X` after `a` ends the editor with the typed `a` in the line:
the backspaces are never handled. -/
theorem typing_then_backspaces_counterexample :
    (demo.mode = EditorMode.USER_FRIENDLY ∧ Inv demo ∧ demo.running = true ∧
      demo.buffer = [['a', 'b'], ['c']]) ∧
    (isprint '(' = true ∧
      handleInputs demoEnv demo (keys ['('] ++ keys [DEL]) =
        some { demo with buffer := [['a', 'b', ')'], ['c']] }) ∧
    (isprint 'S' = true ∧
      handleInputs demoEnv { demo with autoCompletion := false }
          (keys ['S', 'S'] ++ keys [DEL, DEL]) =
        some { demo with autoCompletion := false, buffer := [[], ['c']], cursorX := 0 }) ∧
    (isprint 'a' = true ∧ isprint 'X' = true ∧
      handleInputs demoEnv { demo with autoCompletion := false }
          (keys ['a', 'X'] ++ keys [DEL, DEL]) =
        some { demo with autoCompletion := false, buffer := [['a', 'b', 'a'], ['c']],
                         cursorX := 3, running := false }) := by
  decide

/-- C5, amended: in `USER_FRIENDLY` mode, from a state within bounds, typing `n`
printable characters none of which is the toggle key `S`, the discard key `X`
or, while auto-completion is enabled, one of the auto-paired openers
`(`, `{`, `[`, `"`, and then `n` backspaces (bytes 127 or 8) gives back the state
before the typing: the same lines and the same cursor. -/
theorem typing_then_backspaces_restores (env : Env) (s : NexaVim) (cs bs : List Char)
    (hm : s.mode = EditorMode.USER_FRIENDLY) (h : Inv s)
    (hcs : ∀ c ∈ cs, isprint c = true ∧ c ≠ 'S' ∧ c ≠ 'X' ∧
      (s.autoCompletion = true → c ≠ '(' ∧ c ≠ '{' ∧ c ≠ '[' ∧ c ≠ '"'))
    (hbs : ∀ b ∈ bs, b = DEL ∨ b = BS) (hn : bs.length = cs.length) :
    handleInputs env s (keys cs ++ keys bs) = some s := by
  have e := typing_then_backspaces_aux env cs s bs [] hm h hcs hbs hn
  have e2 : keys (cs ++ bs) ++ [] = keys cs ++ keys bs := by simp [keys]
  rw [e2] at e
  rw [e]
  rfl

/-- C5 (amended) at a concrete input: `hi` typed after `ab`, then two backspaces. -/
theorem typing_then_backspaces_restores_witness :
    demo.mode = EditorMode.USER_FRIENDLY ∧ Inv demo ∧
    (∀ c ∈ ['h', 'i'], isprint c = true ∧ c ≠ 'S' ∧ c ≠ 'X' ∧
      (demo.autoCompletion = true → c ≠ '(' ∧ c ≠ '{' ∧ c ≠ '[' ∧ c ≠ '"')) ∧
    (∀ b ∈ [DEL, BS], b = DEL ∨ b = BS) ∧ [DEL, BS].length = ['h', 'i'].length ∧
    handleInputs demoEnv demo (keys ['h', 'i'] ++ keys [DEL, BS]) = some demo :=
  ⟨by decide, by decide, by decide, by decide, by decide,
    typing_then_backspaces_restores demoEnv demo ['h', 'i'] [DEL, BS] (by decide) (by decide)
      (by decide) (by decide) (by decide)⟩

/-! ## C6 -/

/-- C6: for a printable character `c` at a cursor within bounds, `handleText(c)`
with auto-completion enabled and `c` one of the openers `(`, `{`, `[`, `"`
inserts `c` followed at once by its closer `)`, `}`, `]`, `"` at the old cursor
column and advances `cursorX` by exactly one (the cursor sits between the pair);
with auto-completion disabled, or for any other printable character, it inserts
the one character `c` and advances `cursorX` by one.  The rest of the line, the
other lines and every other field are unchanged. -/
theorem handleText_insert_autopair (s : NexaVim) (c : Char) (hp : isprint c = true)
    (h : Inv s) :
    (s.autoCompletion = true → c = '(' → handleText s c = some (insertedAtCursor s ['(', ')'])) ∧
    (s.autoCompletion = true → c = '{' → handleText s c = some (insertedAtCursor s ['{', '}'])) ∧
    (s.autoCompletion = true → c = '[' → handleText s c = some (insertedAtCursor s ['[', ']'])) ∧
    (s.autoCompletion = true → c = '"' → handleText s c = some (insertedAtCursor s ['"', '"'])) ∧
    (s.autoCompletion = false ∨ (c ≠ '(' ∧ c ≠ '{' ∧ c ≠ '[' ∧ c ≠ '"') →
      handleText s c = some (insertedAtCursor s [c])) := by
  have hins := handleText_insert s c hp h
  refine ⟨?_, ?_, ?_, ?_, ?_⟩
  · intro ha hc
    subst hc
    have hcl : autoCloser s.autoCompletion '(' = [')'] := by rw [ha]; rfl
    rw [hins, hcl]
    rfl
  · intro ha hc
    subst hc
    have hcl : autoCloser s.autoCompletion '{' = ['}'] := by rw [ha]; rfl
    rw [hins, hcl]
    rfl
  · intro ha hc
    subst hc
    have hcl : autoCloser s.autoCompletion '[' = [']'] := by rw [ha]; rfl
    rw [hins, hcl]
    rfl
  · intro ha hc
    subst hc
    have hcl : autoCloser s.autoCompletion '"' = ['"'] := by rw [ha]; rfl
    rw [hins, hcl]
    rfl
  · intro hc
    have hno : autoCloser s.autoCompletion c = [] := by
      apply autoCloser_eq_nil
      intro ha
      rcases hc with hf | hc
      · rw [ha] at hf
        exact absurd hf (by decide)
      · exact hc
    rw [hins, hno]
    rfl

/-- C6 at a concrete input: `(` typed after `ab` with auto-completion on. -/
theorem handleText_insert_autopair_witness :
    isprint '(' = true ∧ Inv demo ∧
    ((demo.autoCompletion = true → '(' = '(' →
        handleText demo '(' = some (insertedAtCursor demo ['(', ')'])) ∧
      (demo.autoCompletion = true → '(' = '{' →
        handleText demo '(' = some (insertedAtCursor demo ['{', '}'])) ∧
      (demo.autoCompletion = true → '(' = '[' →
        handleText demo '(' = some (insertedAtCursor demo ['[', ']'])) ∧
      (demo.autoCompletion = true → '(' = '"' →
        handleText demo '(' = some (insertedAtCursor demo ['"', '"'])) ∧
      (demo.autoCompletion = false ∨ ('(' ≠ '(' ∧ '(' ≠ '{' ∧ '(' ≠ '[' ∧ '(' ≠ '"') →
        handleText demo '(' = some (insertedAtCursor demo ['(']))) :=
  ⟨by decide, by decide, handleText_insert_autopair demo '(' (by decide) (by decide)⟩

/-! ## C7 -/

/-- C7: from `VIM_NORMAL`, in a running editor whose cursor is within bounds and
for every printable character `c`, the keys `i`, `c` leave the editor in
`VIM_INSERT` with `c` inserted at the cursor (followed by its closer when
auto-completion pairs it), the cursor one column further; the key `c` alone,
without the `i`, leaves the lines of the buffer unchanged. -/
theorem vim_normal_i_then_char_inserts (env : Env) (s : NexaVim) (c : Char)
    (hm : s.mode = EditorMode.VIM_NORMAL) (hr : s.running = true) (h : Inv s)
    (hp : isprint c = true) :
    handleInputs env s (keys ['i', c]) =
        some { insertedAtCursor s (c :: autoCloser s.autoCompletion c) with
               mode := EditorMode.VIM_INSERT } ∧
      ∃ s1, handleInput env s (keys [c]) = some (s1, []) ∧ s1.buffer = s.buffer := by
  constructor
  · have hi : Inv { s with mode := EditorMode.VIM_INSERT } := h
    have e1 : keys ['i', c] = some 'i' :: [some c] := rfl
    rw [e1, handleInputs_step env s _ (some 'i') _ hr (handleInput_vim_normal_i env s _ hm)]
    rw [handleInputs_step env { s with mode := EditorMode.VIM_INSERT }
      { insertedAtCursor s (c :: autoCloser s.autoCompletion c) with
        mode := EditorMode.VIM_INSERT } (some c) [] hr
      (by rw [handleInput_text_insert env _ c [] rfl, handleText_insert _ c hp hi]; rfl)]
    rfl
  · exact handleInput_vim_normal_buffer env s c [] hm h.buffer_ne_nil (isprint_ne_control hp).2.2.2

/-- C7 at a concrete input: `i` then `x` in `VIM_NORMAL` on the state `demo`. -/
theorem vim_normal_i_then_char_inserts_witness :
    ({ demo with mode := EditorMode.VIM_NORMAL } : NexaVim).mode = EditorMode.VIM_NORMAL ∧
    ({ demo with mode := EditorMode.VIM_NORMAL } : NexaVim).running = true ∧
    Inv { demo with mode := EditorMode.VIM_NORMAL } ∧ isprint 'x' = true ∧
    (handleInputs demoEnv { demo with mode := EditorMode.VIM_NORMAL } (keys ['i', 'x']) =
        some { insertedAtCursor { demo with mode := EditorMode.VIM_NORMAL }
                 ('x' :: autoCloser
                   ({ demo with mode := EditorMode.VIM_NORMAL } : NexaVim).autoCompletion 'x') with
               mode := EditorMode.VIM_INSERT } ∧
      ∃ s1, handleInput demoEnv { demo with mode := EditorMode.VIM_NORMAL } (keys ['x']) =
          some (s1, []) ∧
        s1.buffer = ({ demo with mode := EditorMode.VIM_NORMAL } : NexaVim).buffer) :=
  ⟨by decide, by decide, by decide, by decide,
    vim_normal_i_then_char_inserts demoEnv { demo with mode := EditorMode.VIM_NORMAL } 'x'
      (by decide) (by decide) (by decide) (by decide)⟩

/-! ## C8 -/

/-- C8 at its failing input: in `VIM_INSERT`, on the lines `ab`, `c` with the
cursor after `ab`, the left-arrow bytes ESC, `[`, `D` are not routed to
`moveCursor(-1, 0)` (which would leave the lines alone and put the cursor at
column 1): the ESC is passed to `handleText` and dropped, `[` is typed and
auto-paired, `D` is typed, so the line becomes `ab[D]` and the cursor column 4.
In `USER_FRIENDLY` mode the same bytes do move the cursor to column 1. -/
theorem arrow_in_vim_insert_types_text :
    handleInputs demoEnv { demo with mode := EditorMode.VIM_INSERT } (keys [ESC, '[', 'D']) =
        some { demo with mode := EditorMode.VIM_INSERT,
                         buffer := [['a', 'b', '[', 'D', ']'], ['c']], cursorX := 4 } ∧
      moveCursor { demo with mode := EditorMode.VIM_INSERT } (-1) 0 =
        some { demo with mode := EditorMode.VIM_INSERT, cursorX := 1 } ∧
      handleInputs demoEnv demo (keys [ESC, '[', 'D']) = some { demo with cursorX := 1 } := by
  decide

/-! ## C9 -/

/-- C9: in `USER_FRIENDLY` or `VIM_NORMAL` mode, when the byte read is `0x1B` and
the read that follows returns no byte (an explicit time-out, or nothing left to
read), `handleInput` saves and terminates.  The file name becomes the line typed
at the prompt when none was known; when a file name is then known and the file
can be opened, one file is written under that name, holding every line of the
buffer followed by a newline; otherwise nothing is written.  In every case
`running` is cleared and no cursor move happens: the cursor column, the cursor
row, the lines and the mode are unchanged. -/
theorem lone_escape_saves_and_terminates (env : Env) (s : NexaVim) (rest : List (Option Char))
    (hm : s.mode = EditorMode.USER_FRIENDLY ∨ s.mode = EditorMode.VIM_NORMAL) :
    ∃ s1, s1 = { saveFile env s with running := false } ∧
      handleInput env s (some ESC :: none :: rest) = some (s1, rest) ∧
      handleInput env s [some ESC] = some (s1, []) ∧
      s1.running = false ∧ s1.cursorX = s.cursorX ∧ s1.cursorY = s.cursorY ∧
      s1.buffer = s.buffer ∧ s1.mode = s.mode ∧
      s1.filename = (if s.filename = [] then env.answer else s.filename) ∧
      (s1.filename ≠ [] → env.canOpen = true →
        s1.written = s.written ++
          [(s1.filename, s.buffer.foldr (fun line acc => line ++ Char.ofNat 10 :: acc) [])]) ∧
      (s1.filename = [] ∨ env.canOpen = false → s1.written = s.written) := by
  have e1 : ESC ≠ 'S' := by decide
  have hmode : s.mode ≠ EditorMode.HOME ∧ s.mode ≠ EditorMode.SETTINGS ∧
      s.mode ≠ EditorMode.VIM_INSERT := by
    rcases hm with hm | hm <;> rw [hm] <;> decide
  have hsf := saveFile_frame env s
  have hname : (saveFile env s).filename = (if s.filename = [] then env.answer else s.filename) := by
    unfold saveFile
    dsimp only
    split_ifs <;> rfl
  have hwrite : (saveFile env s).filename ≠ [] → env.canOpen = true →
      (saveFile env s).written = s.written ++
        [((saveFile env s).filename,
          s.buffer.foldr (fun line acc => line ++ Char.ofNat 10 :: acc) [])] := by
    intro hn hc
    rw [← fileText_eq_foldr]
    rw [hname] at hn ⊢
    unfold saveFile
    dsimp only
    by_cases hf : s.filename = []
    · rw [if_pos hf] at hn
      simp only [hf, if_true]
      rw [if_pos hn, if_pos hc]
    · rw [if_neg hf] at hn
      simp only [hf, if_false]
      rw [if_pos hn, if_pos hc]
  have hskip : (saveFile env s).filename = [] ∨ env.canOpen = false →
      (saveFile env s).written = s.written := by
    intro h
    rw [hname] at h
    unfold saveFile
    dsimp only
    by_cases hf : s.filename = []
    · rw [if_pos hf] at h
      simp only [hf, if_true]
      by_cases hn : env.answer = []
      · rw [if_neg (by simp [hn])]
      · rcases h with h | h
        · exact absurd h hn
        · rw [if_pos hn, if_neg (by simp [h])]
    · rw [if_neg hf] at h
      simp only [hf, if_false]
      rcases h with h | h
      · exact absurd h hf
      · rw [if_pos hf, if_neg (by simp [h])]
  refine ⟨{ saveFile env s with running := false }, rfl, ?_, ?_, rfl, by rw [hsf], by rw [hsf],
    by rw [hsf], by rw [hsf], hname, hwrite, hskip⟩
  · simp [handleInput, handleKey, read, hmode.1, hmode.2.1, hmode.2.2, e1]
  · simp [handleInput, handleKey, read, hmode.1, hmode.2.1, hmode.2.2, e1]

/-- C9 at a concrete input: a lone ESC in the state `demo`, no file name known;
the file `out.txt` is written with the two lines of the buffer. -/
theorem lone_escape_saves_and_terminates_witness :
    (demo.mode = EditorMode.USER_FRIENDLY ∨ demo.mode = EditorMode.VIM_NORMAL) ∧
    (∃ s1, s1 = { saveFile demoEnv demo with running := false } ∧
      handleInput demoEnv demo (some ESC :: none :: []) = some (s1, []) ∧
      handleInput demoEnv demo [some ESC] = some (s1, []) ∧
      s1.running = false ∧ s1.cursorX = demo.cursorX ∧ s1.cursorY = demo.cursorY ∧
      s1.buffer = demo.buffer ∧ s1.mode = demo.mode ∧
      s1.filename = (if demo.filename = [] then demoEnv.answer else demo.filename) ∧
      (s1.filename ≠ [] → demoEnv.canOpen = true →
        s1.written = demo.written ++
          [(s1.filename,
            demo.buffer.foldr (fun line acc => line ++ Char.ofNat 10 :: acc) [])]) ∧
      (s1.filename = [] ∨ demoEnv.canOpen = false → s1.written = demo.written)) ∧
    handleInput demoEnv demo [some ESC] =
      some ({ demo with
        filename := ['o', 'u', 't', '.', 't', 'x', 't']
        written := [(['o', 'u', 't', '.', 't', 'x', 't'],
          ['a', 'b', Char.ofNat 10, 'c', Char.ofNat 10])]
        running := false }, []) :=
  ⟨by decide, lone_escape_saves_and_terminates demoEnv demo [] (by decide), by decide⟩

/-! ## C10 -/

/-- C10: in `USER_FRIENDLY` or `VIM_NORMAL` mode one call of `handleInput`
consumes the three bytes `0x1B`, `[`, `k` and, for `k` = `A`, `B`, `C`, `D` (the
buffer holding at least one line, as it does in these modes), leaves exactly the
state of one `moveCursor(0,-1)`, `moveCursor(0,1)`, `moveCursor(1,0)`,
`moveCursor(-1,0)`, with the lines, `running` and the mode unchanged and nothing
saved; for any other suffix byte `k` the state is unchanged. -/
theorem arrow_sequence_moves_cursor_once (env : Env) (s : NexaVim) (k : Char)
    (rest : List (Option Char))
    (hm : s.mode = EditorMode.USER_FRIENDLY ∨ s.mode = EditorMode.VIM_NORMAL) :
    (k = 'A' → s.buffer ≠ [] → ∃ s1, moveCursor s 0 (-1) = some s1 ∧
      handleInput env s (some ESC :: some '[' :: some k :: rest) = some (s1, rest) ∧
      s1.buffer = s.buffer ∧ s1.running = s.running ∧ s1.mode = s.mode ∧
      s1.written = s.written) ∧
    (k = 'B' → s.buffer ≠ [] → ∃ s1, moveCursor s 0 1 = some s1 ∧
      handleInput env s (some ESC :: some '[' :: some k :: rest) = some (s1, rest) ∧
      s1.buffer = s.buffer ∧ s1.running = s.running ∧ s1.mode = s.mode ∧
      s1.written = s.written) ∧
    (k = 'C' → s.buffer ≠ [] → ∃ s1, moveCursor s 1 0 = some s1 ∧
      handleInput env s (some ESC :: some '[' :: some k :: rest) = some (s1, rest) ∧
      s1.buffer = s.buffer ∧ s1.running = s.running ∧ s1.mode = s.mode ∧
      s1.written = s.written) ∧
    (k = 'D' → s.buffer ≠ [] → ∃ s1, moveCursor s (-1) 0 = some s1 ∧
      handleInput env s (some ESC :: some '[' :: some k :: rest) = some (s1, rest) ∧
      s1.buffer = s.buffer ∧ s1.running = s.running ∧ s1.mode = s.mode ∧
      s1.written = s.written) ∧
    (k ≠ 'A' → k ≠ 'B' → k ≠ 'C' → k ≠ 'D' →
      handleInput env s (some ESC :: some '[' :: some k :: rest) = some (s, rest)) := by
  have harrow := handleInput_arrow env s k rest hm
  refine ⟨?_, ?_, ?_, ?_, ?_⟩
  · intro hk hb
    obtain ⟨y, x, e, _⟩ := moveCursor_spec s 0 (-1) hb
    refine ⟨{ s with cursorY := y, cursorX := x }, e, ?_, rfl, rfl, rfl, rfl⟩
    subst hk
    rw [harrow]
    simp +decide [e]
  · intro hk hb
    obtain ⟨y, x, e, _⟩ := moveCursor_spec s 0 1 hb
    refine ⟨{ s with cursorY := y, cursorX := x }, e, ?_, rfl, rfl, rfl, rfl⟩
    subst hk
    rw [harrow]
    simp +decide [e]
  · intro hk hb
    obtain ⟨y, x, e, _⟩ := moveCursor_spec s 1 0 hb
    refine ⟨{ s with cursorY := y, cursorX := x }, e, ?_, rfl, rfl, rfl, rfl⟩
    subst hk
    rw [harrow]
    simp +decide [e]
  · intro hk hb
    obtain ⟨y, x, e, _⟩ := moveCursor_spec s (-1) 0 hb
    refine ⟨{ s with cursorY := y, cursorX := x }, e, ?_, rfl, rfl, rfl, rfl⟩
    subst hk
    rw [harrow]
    simp +decide [e]
  · intro hA hB hC hD
    rw [harrow]
    simp [hA, hB, hC, hD]

/-- C10 at a concrete input: the bytes ESC, `[`, `B` in the state `demo`. -/
theorem arrow_sequence_moves_cursor_once_witness :
    (demo.mode = EditorMode.USER_FRIENDLY ∨ demo.mode = EditorMode.VIM_NORMAL) ∧
    ∃ s1, moveCursor demo 0 1 = some s1 ∧
      handleInput demoEnv demo (some ESC :: some '[' :: some 'B' :: []) = some (s1, []) ∧
      s1.buffer = demo.buffer ∧ s1.running = demo.running ∧ s1.mode = demo.mode ∧
      s1.written = demo.written :=
  ⟨by decide,
    (arrow_sequence_moves_cursor_once demoEnv demo 'B' [] (by decide)).2.1 rfl (by decide)⟩

/-! ## C11 -/

/-- C11: an editor started without a file (`HOME`, selection 0) that reads Enter,
the string `u`, Enter and the string `v`, where `u` and `v` consist of printable
characters other than `S`, `X` and the auto-paired openers `(`, `{`, `[`, `"`,
ends in `USER_FRIENDLY` mode with the buffer `[u, v]` and the cursor at row 1,
column `length v`; nothing else has changed since the start. -/
theorem new_file_typing_scenario (env : Env) (fileLines : List (List Char)) (rows cols : Int)
    (u v : List Char)
    (hu : ∀ c ∈ u, isprint c = true ∧ c ≠ 'S' ∧ c ≠ 'X' ∧
      c ≠ '(' ∧ c ≠ '{' ∧ c ≠ '[' ∧ c ≠ '"')
    (hv : ∀ c ∈ v, isprint c = true ∧ c ≠ 'S' ∧ c ≠ 'X' ∧
      c ≠ '(' ∧ c ≠ '{' ∧ c ≠ '[' ∧ c ≠ '"') :
    handleInputs env (create [] fileLines rows cols) (keys ([CR] ++ u ++ [CR] ++ v)) =
      some { create [] fileLines rows cols with
             buffer := [u, v], cursorX := v.length, cursorY := 1,
             mode := EditorMode.USER_FRIENDLY } := by
  have hc : create [] fileLines rows cols =
      { buffer := [], filename := [], cursorX := 0, cursorY := 0, rowOffset := 0,
        screenRows := rows, screenCols := cols, homeSelection := 0, settingsSelection := 0,
        mode := EditorMode.HOME, running := true, autoCompletion := true,
        errorChecking := true, written := [] } := rfl
  rw [hc]
  have hshape : keys ([CR] ++ u ++ [CR] ++ v) = some CR :: (keys u ++ (some CR :: keys v)) := by
    simp [keys]
  have hCE : CR ≠ ESC := by decide
  have hCS : CR ≠ 'S' := by decide
  have hCX : CR ≠ 'X' := by decide
  rw [hshape]
  -- Enter in `HOME` on selection 0: the first line is created
  rw [handleInputs_step env _
    { buffer := [[]], filename := [], cursorX := 0, cursorY := 0, rowOffset := 0,
      screenRows := rows, screenCols := cols, homeSelection := 0, settingsSelection := 0,
      mode := EditorMode.USER_FRIENDLY, running := true, autoCompletion := true,
      errorChecking := true, written := [] } (some CR) _ rfl
    (by rw [handleInput_home env _ CR _ rfl, if_neg hCE, if_pos rfl]; simp [showHelp])]
  -- the string `u`
  rw [typing_inserts env u _ _ rfl (by unfold Inv; simp) rfl
    (fun c hcu => ⟨(hu c hcu).1, (hu c hcu).2.1, (hu c hcu).2.2.1, fun _ => (hu c hcu).2.2.2⟩)]
  have h2 : typedAtCursor
      { buffer := [[]], filename := [], cursorX := 0, cursorY := 0, rowOffset := 0,
        screenRows := rows, screenCols := cols, homeSelection := 0, settingsSelection := 0,
        mode := EditorMode.USER_FRIENDLY, running := true, autoCompletion := true,
        errorChecking := true, written := [] } u =
      { buffer := [u], filename := [], cursorX := u.length, cursorY := 0, rowOffset := 0,
        screenRows := rows, screenCols := cols, homeSelection := 0, settingsSelection := 0,
        mode := EditorMode.USER_FRIENDLY, running := true, autoCompletion := true,
        errorChecking := true, written := [] } := by
    simp [typedAtCursor]
  rw [h2]
  -- Enter at the end of `u`
  have hi2 : Inv
      { buffer := [u], filename := [], cursorX := u.length, cursorY := 0, rowOffset := 0,
        screenRows := rows, screenCols := cols, homeSelection := 0, settingsSelection := 0,
        mode := EditorMode.USER_FRIENDLY, running := true, autoCompletion := true,
        errorChecking := true, written := [] } := by
    unfold Inv
    simp
  rw [handleInputs_step env _
    { buffer := [u, []], filename := [], cursorX := 0, cursorY := 1, rowOffset := 0,
      screenRows := rows, screenCols := cols, homeSelection := 0, settingsSelection := 0,
      mode := EditorMode.USER_FRIENDLY, running := true, autoCompletion := true,
      errorChecking := true, written := [] } (some CR) _ rfl
    (by
      rw [handleInput_text_friendly env _ CR _ rfl hCS hCE hCX, handleText_split _ hi2]
      simp)]
  -- the string `v`
  have hshape2 : keys v = keys v ++ [] := by simp
  rw [hshape2, typing_inserts env v _ _ rfl (by unfold Inv; simp) rfl
    (fun c hcv => ⟨(hv c hcv).1, (hv c hcv).2.1, (hv c hcv).2.2.1, fun _ => (hv c hcv).2.2.2⟩)]
  simp [typedAtCursor, handleInputs, handleInputsFuel]

/-- C11 at the input of the spec: `ab`, Enter, `c` gives the buffer `ab`, `c` and
the cursor at row 1, column 1. -/
theorem new_file_typing_scenario_witness :
    (∀ c ∈ ['a', 'b'], isprint c = true ∧ c ≠ 'S' ∧ c ≠ 'X' ∧
      c ≠ '(' ∧ c ≠ '{' ∧ c ≠ '[' ∧ c ≠ '"') ∧
    (∀ c ∈ ['c'], isprint c = true ∧ c ≠ 'S' ∧ c ≠ 'X' ∧
      c ≠ '(' ∧ c ≠ '{' ∧ c ≠ '[' ∧ c ≠ '"') ∧
    handleInputs demoEnv (create [] [] 24 80) (keys ([CR] ++ ['a', 'b'] ++ [CR] ++ ['c'])) =
      some { create [] [] 24 80 with
             buffer := [['a', 'b'], ['c']], cursorX := (['c'].length : Nat), cursorY := 1,
             mode := EditorMode.USER_FRIENDLY } :=
  ⟨by decide, by decide,
    new_file_typing_scenario demoEnv [] 24 80 ['a', 'b'] ['c'] (by decide) (by decide)⟩

/-! ## C12 -/

/-- C12, as stated, fails.  Started without a file the editor is in `HOME` with
an empty buffer: the startup state itself holds no line, and it still holds
none after the keys Down-arrow and Enter have led to `SETTINGS`. -/
theorem buffer_never_empty_counterexample :
    (create [] [] 24 80).mode = EditorMode.HOME ∧ (create [] [] 24 80).buffer = [] ∧
    run (fun _ => demoEnv) 0 (create [] [] 24 80) [] = some (create [] [] 24 80) ∧
    run (fun _ => demoEnv) 2 (create [] [] 24 80) (keys [ESC, '[', 'B', CR]) =
      some { create [] [] 24 80 with homeSelection := 1, mode := EditorMode.SETTINGS } ∧
    ({ create [] [] 24 80 with homeSelection := 1, mode := EditorMode.SETTINGS } : NexaVim).buffer
      = [] := by
  decide

/-- C12, amended: from a startup state (no file: `HOME`; a file: `USER_FRIENDLY`
on its lines, or on one empty line), after any number of iterations of the loop
of `run` over any read outcomes, no access is out of range and: in an editing
mode (`USER_FRIENDLY`, `VIM_NORMAL`, `VIM_INSERT`) the buffer holds at least one
line and the cursor is within bounds; in `HOME` and `SETTINGS` the buffer is
still empty and the cursor at the origin, the first line being created when
"Start New File" is chosen; and an editor started on a file is always in an
editing mode. -/
theorem editing_modes_keep_bounds (envs : Nat → Env) (n : Nat) (fn : List Char)
    (fileLines : List (List Char)) (rows cols : Int) (inp : List (Option Char)) :
    ∃ s1, run envs n (create fn fileLines rows cols) inp = some s1 ∧
      ((s1.mode = EditorMode.USER_FRIENDLY ∨ s1.mode = EditorMode.VIM_NORMAL ∨
          s1.mode = EditorMode.VIM_INSERT) →
        0 < s1.buffer.length ∧ 0 ≤ s1.cursorY ∧ s1.cursorY < s1.buffer.length ∧
          0 ≤ s1.cursorX ∧ s1.cursorX ≤ (s1.buffer.getD s1.cursorY.toNat []).length) ∧
      ((s1.mode = EditorMode.HOME ∨ s1.mode = EditorMode.SETTINGS) →
        s1.buffer = [] ∧ s1.cursorX = 0 ∧ s1.cursorY = 0) ∧
      (fn ≠ [] → s1.mode = EditorMode.USER_FRIENDLY ∨ s1.mode = EditorMode.VIM_NORMAL ∨
        s1.mode = EditorMode.VIM_INSERT) := by
  obtain ⟨hg, hfile⟩ := create_good fn fileLines rows cols
  obtain ⟨s1, e, g1, hf1⟩ := run_invariant envs
    (fun t => Good t ∧ (fn ≠ [] → t.mode = EditorMode.USER_FRIENDLY ∨
      t.mode = EditorMode.VIM_NORMAL ∨ t.mode = EditorMode.VIM_INSERT))
    (fun t ht => ⟨render_good t ht.1, by rw [render_frame]; exact ht.2⟩)
    (fun env t inp ht => by
      obtain ⟨t1, inp1, e, g, hm⟩ := handleInput_good env t inp ht.1
      exact ⟨t1, inp1, e, g, fun hfn => hm (ht.2 hfn)⟩)
    n (create fn fileLines rows cols) inp ⟨hg, fun hfn => Or.inl (hfile hfn)⟩
  refine ⟨s1, e, ?_, ?_, hf1⟩
  · intro hm
    rcases g1.2.2 with ⟨hmenu, _⟩ | ⟨_, hi⟩
    · rcases hmenu with e1 | e1 <;> rcases hm with e2 | e2 | e2 <;> rw [e1] at e2 <;>
        exact absurd e2 (by decide)
    · exact ⟨List.length_pos.mpr hi.buffer_ne_nil, hi⟩
  · intro hm
    rcases g1.2.2 with ⟨_, hb⟩ | ⟨he, _⟩
    · exact hb
    · rcases hm with e1 | e1 <;> rcases he with e2 | e2 | e2 <;> rw [e1] at e2 <;>
        exact absurd e2 (by decide)

/-- C12 (amended) at a concrete input: an editor started on the file `f` with the
one line `a`, one iteration of the loop over the key `x`. -/
theorem editing_modes_keep_bounds_witness :
    ∃ s1, run (fun _ => demoEnv) 1 (create ['f'] [['a']] 24 80) (keys ['x']) = some s1 ∧
      ((s1.mode = EditorMode.USER_FRIENDLY ∨ s1.mode = EditorMode.VIM_NORMAL ∨
          s1.mode = EditorMode.VIM_INSERT) →
        0 < s1.buffer.length ∧ 0 ≤ s1.cursorY ∧ s1.cursorY < s1.buffer.length ∧
          0 ≤ s1.cursorX ∧ s1.cursorX ≤ (s1.buffer.getD s1.cursorY.toNat []).length) ∧
      ((s1.mode = EditorMode.HOME ∨ s1.mode = EditorMode.SETTINGS) →
        s1.buffer = [] ∧ s1.cursorX = 0 ∧ s1.cursorY = 0) ∧
      (['f'] ≠ [] → s1.mode = EditorMode.USER_FRIENDLY ∨ s1.mode = EditorMode.VIM_NORMAL ∨
        s1.mode = EditorMode.VIM_INSERT) :=
  editing_modes_keep_bounds (fun _ => demoEnv) 1 ['f'] [['a']] 24 80 (keys ['x'])

/-! ## C13 -/

/-- C13: for a backspace byte (127 or 8) and a state within bounds.  With
`cursorX > 0`, `handleText` removes exactly the character before the cursor from
the current line and decreases `cursorX` by one.  With `cursorX = 0` and
`cursorY > 0`, the buffer being `pre ++ prev :: cur :: post` with `cur` the
current line, it becomes `pre ++ (prev ++ cur) :: post` (one line fewer), the
cursor column becomes the old length of `prev` and the cursor row decreases by
one.  At row 0, column 0 the state is unchanged.  In each case all other lines
and all other fields are unchanged. -/
theorem backspace_postcondition (s : NexaVim) (c : Char) (hc : c = DEL ∨ c = BS) (h : Inv s) :
    (0 < s.cursorX →
      handleText s c = some { s with
        buffer := s.buffer.set s.cursorY.toNat
          ((s.buffer.getD s.cursorY.toNat []).eraseIdx (s.cursorX.toNat - 1))
        cursorX := s.cursorX - 1 }) ∧
    (s.cursorX = 0 → 0 < s.cursorY →
      ∃ pre prev cur post, s.buffer = pre ++ prev :: cur :: post ∧
        (pre.length : Int) + 1 = s.cursorY ∧
        handleText s c = some { s with
          buffer := pre ++ (prev ++ cur) :: post
          cursorX := prev.length
          cursorY := s.cursorY - 1 }) ∧
    (s.cursorX = 0 → s.cursorY = 0 → handleText s c = some s) := by
  refine ⟨?_, ?_, ?_⟩
  · intro hx
    rw [handleText_erase s c hc h hx, List.eraseIdx_eq_take_drop_succ]
    have e : s.cursorX.toNat - 1 + 1 = s.cursorX.toNat := by omega
    rw [e]
  · intro hx hy
    obtain ⟨pre, prev, cur, post, hb, hlen, hprev, hcur⟩ := h.decompose_two hy
    refine ⟨pre, prev, cur, post, hb, by omega, ?_⟩
    rw [handleText_join s c hc h hx hy, hprev, hcur]
    have e1 : s.cursorY.toNat - 1 = pre.length := by omega
    rw [e1, ← hlen, hb, join_buffer]
  · intro hx hy
    exact handleText_start s c hc hx hy

/-- C13 at a concrete input: DEL at the end of the first line of `demo`. -/
theorem backspace_postcondition_witness :
    (DEL = DEL ∨ DEL = BS) ∧ Inv demo ∧ 0 < demo.cursorX ∧
    handleText demo DEL = some { demo with
      buffer := demo.buffer.set demo.cursorY.toNat
        ((demo.buffer.getD demo.cursorY.toNat []).eraseIdx (demo.cursorX.toNat - 1))
      cursorX := demo.cursorX - 1 } :=
  ⟨by decide, by decide, by decide,
    (backspace_postcondition demo DEL (by decide) (by decide)).1 (by decide)⟩

/-! ## C14 -/

/-- C14: the key `S` in `USER_FRIENDLY` sets the mode to `VIM_NORMAL` and in
`VIM_NORMAL` sets it to `USER_FRIENDLY`, changing nothing else (lines, cursor and
`running` included); in a running editor two `S` in a row give back the state
they started from.  In `VIM_INSERT` (cursor within bounds) `S` is no toggle: it
is typed into the line and the mode stays `VIM_INSERT`. -/
theorem toggle_key_two_way (env : Env) (s : NexaVim) (rest : List (Option Char)) :
    (s.mode = EditorMode.USER_FRIENDLY →
      handleInput env s (some 'S' :: rest) =
        some ({ s with mode := EditorMode.VIM_NORMAL }, rest)) ∧
    (s.mode = EditorMode.VIM_NORMAL →
      handleInput env s (some 'S' :: rest) =
        some ({ s with mode := EditorMode.USER_FRIENDLY }, rest)) ∧
    (s.mode = EditorMode.USER_FRIENDLY ∨ s.mode = EditorMode.VIM_NORMAL → s.running = true →
      handleInputs env s (keys ['S', 'S']) = some s) ∧
    (s.mode = EditorMode.VIM_INSERT → Inv s →
      handleInput env s (some 'S' :: rest) = some (insertedAtCursor s ['S'], rest) ∧
      (insertedAtCursor s ['S']).mode = EditorMode.VIM_INSERT) := by
  refine ⟨?_, ?_, ?_, ?_⟩
  · intro hm
    rw [handleInput_toggle env s rest (Or.inl hm), if_pos hm]
  · intro hm
    rw [handleInput_toggle env s rest (Or.inr hm), if_neg (by rw [hm]; decide)]
  · intro hm hr
    rcases s with ⟨b, f, cx, cy, ro, sr, sc, hs, ss, m, rn, ac, ec, w⟩
    simp only at hm hr
    subst hr
    rcases hm with rfl | rfl <;>
      simp [handleInputs, handleInputsFuel, handleInput, read, keys]
  · intro hm h
    have hp : isprint 'S' = true := by decide
    refine ⟨?_, hm⟩
    rw [handleInput_text_insert env s 'S' rest hm, handleText_insert s 'S' hp h]
    have hcl : autoCloser s.autoCompletion 'S' = [] := by
      apply autoCloser_eq_nil
      intro _
      decide
    rw [hcl]
    rfl

/-- C14 at a concrete input: `S`, `S` in the state `demo`. -/
theorem toggle_key_two_way_witness :
    (demo.mode = EditorMode.USER_FRIENDLY ∨ demo.mode = EditorMode.VIM_NORMAL) ∧
    demo.running = true ∧ handleInputs demoEnv demo (keys ['S', 'S']) = some demo :=
  ⟨by decide, by decide,
    (toggle_key_two_way demoEnv demo []).2.2.1 (by decide) (by decide)⟩

/-! ## C15 -/

/-- C15: the key `X` in `USER_FRIENDLY` or `VIM_NORMAL` clears `running` and
changes nothing else: `saveFile` is not run (no file is written, the file name
stays), the lines and the cursor stay.  In `VIM_INSERT` (cursor within bounds)
`X` does not ask for termination: it is typed into the line and `running` is
unchanged. -/
theorem discard_key_terminates_without_saving (env : Env) (s : NexaVim)
    (rest : List (Option Char)) :
    (s.mode = EditorMode.USER_FRIENDLY ∨ s.mode = EditorMode.VIM_NORMAL →
      handleInput env s (some 'X' :: rest) = some ({ s with running := false }, rest) ∧
      ({ s with running := false } : NexaVim).written = s.written ∧
      ({ s with running := false } : NexaVim).filename = s.filename ∧
      ({ s with running := false } : NexaVim).buffer = s.buffer ∧
      ({ s with running := false } : NexaVim).cursorX = s.cursorX ∧
      ({ s with running := false } : NexaVim).cursorY = s.cursorY) ∧
    (s.mode = EditorMode.VIM_INSERT → Inv s →
      handleInput env s (some 'X' :: rest) = some (insertedAtCursor s ['X'], rest) ∧
      (insertedAtCursor s ['X']).running = s.running) := by
  have e1 : ('X' : Char) ≠ 'S' := by decide
  have e2 : ('X' : Char) ≠ ESC := by decide
  refine ⟨?_, ?_⟩
  · intro hm
    refine ⟨?_, rfl, rfl, rfl, rfl, rfl⟩
    rcases hm with hm | hm <;> simp [handleInput, handleKey, read, hm, e1, e2]
  · intro hm h
    have hp : isprint 'X' = true := by decide
    refine ⟨?_, rfl⟩
    rw [handleInput_text_insert env s 'X' rest hm, handleText_insert s 'X' hp h]
    have hcl : autoCloser s.autoCompletion 'X' = [] := by
      apply autoCloser_eq_nil
      intro _
      decide
    rw [hcl]
    rfl

/-- C15 at a concrete input: `X` in the state `demo`. -/
theorem discard_key_terminates_without_saving_witness :
    (demo.mode = EditorMode.USER_FRIENDLY ∨ demo.mode = EditorMode.VIM_NORMAL) ∧
    handleInput demoEnv demo (some 'X' :: []) = some ({ demo with running := false }, []) :=
  ⟨by decide, ((discard_key_terminates_without_saving demoEnv demo []).1 (by decide)).1⟩

/-! ## C16 -/

/-- C16: after any number of iterations of the loop of `run` from a startup
state, `homeSelection` is within 0..3 and `settingsSelection` within 0..2.  In
`HOME` the Down-arrow bytes map the selection `v ≥ 0` to `(v + 1) mod 4` and the
Up-arrow bytes to `(v + 3) mod 4`; in `SETTINGS` Down maps `v ≥ 0` to
`(v + 1) mod 3` and Up to `(v + 2) mod 3`; nothing else changes.  In a running
editor with the selection in range, Up then Down and Down then Up give back the
state they started from, in both menus. -/
theorem menu_selection_modular (envs : Nat → Env) (env : Env) (n : Nat) (fn : List Char)
    (fileLines : List (List Char)) (rows cols : Int) (inp rest : List (Option Char))
    (s : NexaVim) :
    (∃ s1, run envs n (create fn fileLines rows cols) inp = some s1 ∧
      0 ≤ s1.homeSelection ∧ s1.homeSelection ≤ 3 ∧
      0 ≤ s1.settingsSelection ∧ s1.settingsSelection ≤ 2) ∧
    (s.mode = EditorMode.HOME → 0 ≤ s.homeSelection →
      handleInput env s (some ESC :: some '[' :: some 'B' :: rest) =
          some ({ s with homeSelection := (s.homeSelection + 1) % 4 }, rest) ∧
        handleInput env s (some ESC :: some '[' :: some 'A' :: rest) =
          some ({ s with homeSelection := (s.homeSelection + 3) % 4 }, rest)) ∧
    (s.mode = EditorMode.SETTINGS → 0 ≤ s.settingsSelection →
      handleInput env s (some ESC :: some '[' :: some 'B' :: rest) =
          some ({ s with settingsSelection := (s.settingsSelection + 1) % 3 }, rest) ∧
        handleInput env s (some ESC :: some '[' :: some 'A' :: rest) =
          some ({ s with settingsSelection := (s.settingsSelection + 2) % 3 }, rest)) ∧
    (s.mode = EditorMode.HOME → s.running = true →
      0 ≤ s.homeSelection → s.homeSelection ≤ 3 →
      handleInputs env s (keys [ESC, '[', 'A', ESC, '[', 'B']) = some s ∧
        handleInputs env s (keys [ESC, '[', 'B', ESC, '[', 'A']) = some s) ∧
    (s.mode = EditorMode.SETTINGS → s.running = true →
      0 ≤ s.settingsSelection → s.settingsSelection ≤ 2 →
      handleInputs env s (keys [ESC, '[', 'A', ESC, '[', 'B']) = some s ∧
        handleInputs env s (keys [ESC, '[', 'B', ESC, '[', 'A']) = some s) := by
  have hup : ∀ t : NexaVim, t.mode = EditorMode.HOME → 0 ≤ t.homeSelection →
      ∀ rest, handleInput env t (some ESC :: some '[' :: some 'A' :: rest) =
        some ({ t with homeSelection := (t.homeSelection + 3) % 4 }, rest) :=
    fun t ht h0 rest => (handleInput_home_arrow env t '[' 'A' rest ht h0).1 rfl
  have hdown : ∀ t : NexaVim, t.mode = EditorMode.HOME → 0 ≤ t.homeSelection →
      ∀ rest, handleInput env t (some ESC :: some '[' :: some 'B' :: rest) =
        some ({ t with homeSelection := (t.homeSelection + 1) % 4 }, rest) :=
    fun t ht h0 rest => (handleInput_home_arrow env t '[' 'B' rest ht h0).2 rfl
  have sup : ∀ t : NexaVim, t.mode = EditorMode.SETTINGS → 0 ≤ t.settingsSelection →
      ∀ rest, handleInput env t (some ESC :: some '[' :: some 'A' :: rest) =
        some ({ t with settingsSelection := (t.settingsSelection + 2) % 3 }, rest) :=
    fun t ht h0 rest => (handleInput_settings_arrow env t '[' 'A' rest ht h0).1 rfl
  have sdown : ∀ t : NexaVim, t.mode = EditorMode.SETTINGS → 0 ≤ t.settingsSelection →
      ∀ rest, handleInput env t (some ESC :: some '[' :: some 'B' :: rest) =
        some ({ t with settingsSelection := (t.settingsSelection + 1) % 3 }, rest) :=
    fun t ht h0 rest => (handleInput_settings_arrow env t '[' 'B' rest ht h0).2 rfl
  refine ⟨?_, ?_, ?_, ?_, ?_⟩
  · obtain ⟨s1, e, g1⟩ := run_invariant envs Good render_good
      (fun env t inp ht => by
        obtain ⟨t1, inp1, e, g, _⟩ := handleInput_good env t inp ht
        exact ⟨t1, inp1, e, g⟩)
      n (create fn fileLines rows cols) inp (create_good fn fileLines rows cols).1
    exact ⟨s1, e, g1.1.1, g1.1.2, g1.2.1.1, g1.2.1.2⟩
  · intro hH h0
    exact ⟨hdown s hH h0 rest, hup s hH h0 rest⟩
  · intro hT h0
    exact ⟨sdown s hT h0 rest, sup s hT h0 rest⟩
  · intro hH hr h0 h3
    exact ⟨home_round_trip env s 'A' 'B' 3 1 hr hup hdown (by decide) hH h0 h3,
      home_round_trip env s 'B' 'A' 1 3 hr hdown hup (by decide) hH h0 h3⟩
  · intro hT hr h0 h3
    exact ⟨settings_round_trip env s 'A' 'B' 2 1 hr sup sdown (by decide) hT h0 h3,
      settings_round_trip env s 'B' 'A' 1 2 hr sdown sup (by decide) hT h0 h3⟩

/-- C16 at a concrete input: Up then Down, and Down then Up, in the `HOME` menu
of an editor started without a file (selection 0, which Up wraps to 3). -/
theorem menu_selection_modular_witness :
    (create [] [] 24 80).mode = EditorMode.HOME ∧ (create [] [] 24 80).running = true ∧
    0 ≤ (create [] [] 24 80).homeSelection ∧ (create [] [] 24 80).homeSelection ≤ 3 ∧
    handleInputs demoEnv (create [] [] 24 80) (keys [ESC, '[', 'A', ESC, '[', 'B']) =
      some (create [] [] 24 80) ∧
    handleInputs demoEnv (create [] [] 24 80) (keys [ESC, '[', 'B', ESC, '[', 'A']) =
      some (create [] [] 24 80) :=
  ⟨by decide, by decide, by decide, by decide,
    (menu_selection_modular (fun _ => demoEnv) demoEnv 0 [] [] 24 80 [] []
      (create [] [] 24 80)).2.2.2.1 (by decide) (by decide) (by decide) (by decide)⟩

/-! ## C17 -/

/-- C17: in `SETTINGS`, Enter on index 0 flips `autoCompletion` and nothing else,
on index 1 flips `errorChecking` and nothing else, and on index 2 sets the mode
to `HOME` with both toggles as they were.  In every other mode, whatever the
read outcomes, a call of `handleInput` that returns leaves `autoCompletion` and
`errorChecking` unchanged, and from every well-formed state in another mode the
call does return. -/
theorem settings_toggles_only_in_settings (env : Env) (s : NexaVim)
    (rest inp : List (Option Char)) :
    (s.mode = EditorMode.SETTINGS → s.settingsSelection = 0 →
      handleInput env s (some CR :: rest) =
        some ({ s with autoCompletion := !s.autoCompletion }, rest)) ∧
    (s.mode = EditorMode.SETTINGS → s.settingsSelection = 1 →
      handleInput env s (some CR :: rest) =
        some ({ s with errorChecking := !s.errorChecking }, rest)) ∧
    (s.mode = EditorMode.SETTINGS → s.settingsSelection = 2 →
      handleInput env s (some CR :: rest) = some ({ s with mode := EditorMode.HOME }, rest)) ∧
    (s.mode ≠ EditorMode.SETTINGS →
      ∀ s1 inp1, handleInput env s inp = some (s1, inp1) →
        s1.autoCompletion = s.autoCompletion ∧ s1.errorChecking = s.errorChecking) ∧
    (s.mode ≠ EditorMode.SETTINGS → Good s →
      ∃ s1 inp1, handleInput env s inp = some (s1, inp1) ∧
        s1.autoCompletion = s.autoCompletion ∧ s1.errorChecking = s.errorChecking) := by
  have hCE : CR ≠ ESC := by decide
  refine ⟨?_, ?_, ?_, ?_, ?_⟩
  · intro hT e
    rw [handleInput_settings env s CR rest hT, if_neg hCE, if_pos rfl]
    simp [e]
  · intro hT e
    rw [handleInput_settings env s CR rest hT, if_neg hCE, if_pos rfl]
    simp [e]
  · intro hT e
    rw [handleInput_settings env s CR rest hT, if_neg hCE, if_pos rfl]
    simp [e]
  · intro hT s1 inp1 h
    exact handleInput_toggles_frame env s s1 inp inp1 hT h
  · intro hT hg
    obtain ⟨s1, inp1, e, _⟩ := handleInput_good env s inp hg
    exact ⟨s1, inp1, e, handleInput_toggles_frame env s s1 inp inp1 hT e⟩

/-- C17 at a concrete input: Enter on index 0 of the settings menu, and the key
`(` in `USER_FRIENDLY` mode on the state `demo`. -/
theorem settings_toggles_only_in_settings_witness :
    ({ create [] [] 24 80 with mode := EditorMode.SETTINGS } : NexaVim).mode =
      EditorMode.SETTINGS ∧
    ({ create [] [] 24 80 with mode := EditorMode.SETTINGS } : NexaVim).settingsSelection = 0 ∧
    handleInput demoEnv { create [] [] 24 80 with mode := EditorMode.SETTINGS }
        (some CR :: []) =
      some ({ create [] [] 24 80 with mode := EditorMode.SETTINGS, autoCompletion := false },
        []) :=
  ⟨by decide, by decide,
    (settings_toggles_only_in_settings demoEnv
      { create [] [] 24 80 with mode := EditorMode.SETTINGS } [] []).1 (by decide) (by decide)⟩

/-! ## C18 -/

/-- C18: with at least one visible row (`screenRows - 2 ≥ 1`), `rowOffset ≥ 0`
and `cursorY ≥ 0`, the scroll rule of `renderEditor` leaves `rowOffset` as it is
when the cursor row is already visible; otherwise it sets it to
`cursorY - visibleRows + 1` (cursor below the window) or to `cursorY` (cursor
above it).  The new offset is, among all offsets that make the cursor row
visible, one nearest to the old offset, and it is not negative. -/
theorem renderEditor_minimal_scroll (s : NexaVim) (hv : 1 ≤ s.screenRows - 2)
    (hr : 0 ≤ s.rowOffset) (hy : 0 ≤ s.cursorY) :
    (s.rowOffset ≤ s.cursorY ∧ s.cursorY < s.rowOffset + (s.screenRows - 2) →
      (renderEditor s).rowOffset = s.rowOffset) ∧
    (s.rowOffset + (s.screenRows - 2) ≤ s.cursorY →
      (renderEditor s).rowOffset = s.cursorY - (s.screenRows - 2) + 1) ∧
    (s.cursorY < s.rowOffset → (renderEditor s).rowOffset = s.cursorY) ∧
    (∀ r : Int, r ≤ s.cursorY → s.cursorY < r + (s.screenRows - 2) →
      |(renderEditor s).rowOffset - s.rowOffset| ≤ |r - s.rowOffset|) ∧
    0 ≤ (renderEditor s).rowOffset := by
  have key : (renderEditor s).rowOffset =
      if s.rowOffset + (s.screenRows - 2) ≤ s.cursorY then s.cursorY - (s.screenRows - 2) + 1
      else if s.cursorY < s.rowOffset then s.cursorY else s.rowOffset := by
    unfold renderEditor
    by_cases h1 : s.cursorY ≥ s.rowOffset + s.screenRows - 2
    · have h1a : s.rowOffset + (s.screenRows - 2) ≤ s.cursorY := by omega
      rw [if_pos h1, if_pos h1a]
      dsimp only
      rw [if_neg (by omega)]
      dsimp only
      omega
    · have h1a : ¬ s.rowOffset + (s.screenRows - 2) ≤ s.cursorY := by omega
      rw [if_neg h1, if_neg h1a]
      dsimp only
      by_cases h2 : s.cursorY < s.rowOffset
      · rw [if_pos h2, if_pos h2]
      · rw [if_neg h2, if_neg h2]
  rw [key]
  refine ⟨?_, ?_, ?_, ?_, ?_⟩
  · intro h
    rw [if_neg (by omega), if_neg (by omega)]
  · intro h
    rw [if_pos h]
  · intro h
    rw [if_neg (by omega), if_pos h]
  · intro r h1 h2
    split_ifs <;> rw [abs_le] <;> constructor <;>
      rcases abs_cases (r - s.rowOffset) with ⟨e, _⟩ | ⟨e, _⟩ <;> omega
  · split_ifs <;> omega

/-- C18 at a concrete input: the cursor on row 30 of a 24-row terminal, the
viewport at the top; the viewport moves to row 9. -/
theorem renderEditor_minimal_scroll_witness :
    1 ≤ ({ demo with cursorY := 30 } : NexaVim).screenRows - 2 ∧
    0 ≤ ({ demo with cursorY := 30 } : NexaVim).rowOffset ∧
    0 ≤ ({ demo with cursorY := 30 } : NexaVim).cursorY ∧
    (renderEditor { demo with cursorY := 30 }).rowOffset = 30 - (24 - 2) + 1 ∧
    (∀ r : Int, r ≤ 30 → 30 < r + (24 - 2) →
      |(renderEditor { demo with cursorY := 30 }).rowOffset - 0| ≤ |r - 0|) ∧
    0 ≤ (renderEditor { demo with cursorY := 30 }).rowOffset :=
  ⟨by decide, by decide, by decide,
    (renderEditor_minimal_scroll { demo with cursorY := 30 } (by decide) (by decide)
      (by decide)).2.1 (by decide),
    (renderEditor_minimal_scroll { demo with cursorY := 30 } (by decide) (by decide)
      (by decide)).2.2.2.1,
    (renderEditor_minimal_scroll { demo with cursorY := 30 } (by decide) (by decide)
      (by decide)).2.2.2.2⟩

/-! ## C19 -/

/-- C19, as stated, fails.  On the two lines `ab`, `c` with the cursor on row 1
of a 24-row terminal the claimed indicator row is `floor(1 * 22 / 2) = 11`, but
the frame has the highlighted block on row 0, the dim indicator on row 1 and
nothing on rows 2 to 21.  On three lines in a 5-row terminal all three visible
rows get the highlighted block, whatever the cursor row. -/
theorem scrollbar_counterexample :
    (scrollbar { demo with cursorY := 1, cursorX := 0 } =
        some Indicator.highlighted :: some Indicator.dim :: List.replicate 20 none ∧
      (({ demo with cursorY := 1, cursorX := 0 } : NexaVim).cursorY *
          (({ demo with cursorY := 1, cursorX := 0 } : NexaVim).screenRows - 2)) /
        max (({ demo with cursorY := 1, cursorX := 0 } : NexaVim).buffer.length : Int) 1 = 11) ∧
    (scrollbar { demo with buffer := [[], [], []], cursorX := 0, screenRows := 5 } =
        [some Indicator.highlighted, some Indicator.highlighted, some Indicator.highlighted] ∧
      scrollbar { demo with buffer := [[], [], []], cursorX := 0, cursorY := 2, screenRows := 5 } =
        [some Indicator.highlighted, some Indicator.highlighted, some Indicator.highlighted]) := by
  decide

/-- C19, amended: in a rendered editor frame (at least one visible row,
`rowOffset ≥ 0`, `cursorY ≥ 0`, fewer than `2^31` lines) the scrollbar has one
entry for each of the `screenRows - 2` visible rows; the row `i` shows the
buffer line `i + rowOffset` (the offset after the scroll rule) and, as long as
the product `(i + rowOffset) * visibleRows` fits a 32-bit `int`, it gets, when
that line exists, the highlighted block exactly when
`floor((i + rowOffset) * visibleRows / max(lineCount, 1)) = i` and the dim
indicator otherwise; a row that shows no buffer line gets no indicator.  The
cursor row enters only through the scroll offset. -/
theorem scrollbar_rows (s : NexaVim) (i : Nat) (hv : 1 ≤ s.screenRows - 2)
    (hr : 0 ≤ s.rowOffset) (hy : 0 ≤ s.cursorY) (hi : (i : Int) < s.screenRows - 2)
    (hlen : (s.buffer.length : Int) < 2147483648)
    (hprod : ((i : Int) + (renderEditor s).rowOffset) * (s.screenRows - 2) < 2147483648) :
    (scrollbar s).length = (s.screenRows - 2).toNat ∧
    (scrollbar s)[i]? = some
      (if (i : Int) + (renderEditor s).rowOffset < s.buffer.length then
        (if (((i : Int) + (renderEditor s).rowOffset) * (s.screenRows - 2)) /
              max (s.buffer.length : Int) 1 = i
          then some Indicator.highlighted else some Indicator.dim)
      else none) := by
  have hro : 0 ≤ (renderEditor s).rowOffset := by
    rw [renderEditor_rowOffset_eq s hv]
    split_ifs <;> omega
  have hfr := renderEditor_frame s
  have hrows : (renderEditor s).screenRows = s.screenRows := by rw [hfr]
  have hbuf : (renderEditor s).buffer = s.buffer := by rw [hfr]
  have hlt : i < (s.screenRows - 2).toNat := by omega
  have hidx : (i : Int) + (renderEditor s).rowOffset < 2147483648 := by nlinarith
  constructor
  · simp [scrollbar, hrows]
  · have hb := barPos_eq_floor (renderEditor s) (i : Int) (by rw [hrows]; omega) (by omega)
      (by rw [hbuf]; exact hlen) (by rw [hrows]; exact hprod)
    rw [hrows, hbuf] at hb
    simp only [scrollbar, hrows, List.getElem?_map, List.getElem?_range hlt, Option.map_some',
      rowIndicator, Int.ofNat_eq_coe, hb, hbuf,
      wrapInt_of_range _ (show (-2147483648 : Int) ≤ (i : Int) + (renderEditor s).rowOffset by
        omega) hidx,
      wrapInt_of_range _ (show (-2147483648 : Int) ≤ (s.buffer.length : Int) by omega) hlen]

/-- C19 (amended) at a concrete input: row 1 of the frame of the two lines `ab`,
`c` with the cursor on row 1 gets the dim indicator. -/
theorem scrollbar_rows_witness :
    1 ≤ ({ demo with cursorY := 1, cursorX := 0 } : NexaVim).screenRows - 2 ∧
    0 ≤ ({ demo with cursorY := 1, cursorX := 0 } : NexaVim).rowOffset ∧
    0 ≤ ({ demo with cursorY := 1, cursorX := 0 } : NexaVim).cursorY ∧
    ((1 : Nat) : Int) < ({ demo with cursorY := 1, cursorX := 0 } : NexaVim).screenRows - 2 ∧
    (({ demo with cursorY := 1, cursorX := 0 } : NexaVim).buffer.length : Int) < 2147483648 ∧
    (((1 : Nat) : Int) + (renderEditor { demo with cursorY := 1, cursorX := 0 }).rowOffset) *
      (({ demo with cursorY := 1, cursorX := 0 } : NexaVim).screenRows - 2) < 2147483648 ∧
    (scrollbar { demo with cursorY := 1, cursorX := 0 }).length = 22 ∧
    (scrollbar { demo with cursorY := 1, cursorX := 0 })[1]? = some (some Indicator.dim) :=
  ⟨by decide, by decide, by decide, by decide, by decide, by decide,
    (scrollbar_rows { demo with cursorY := 1, cursorX := 0 } 1 (by decide) (by decide)
      (by decide) (by decide) (by decide) (by decide)).1,
    (scrollbar_rows { demo with cursorY := 1, cursorX := 0 } 1 (by decide) (by decide)
      (by decide) (by decide) (by decide) (by decide)).2⟩

/-! ## C20 -/

/-- C20: in `VIM_INSERT` with the cursor within bounds, `handleInput` on any read
outcomes (ESC, `S`, `X` and arrow sequences included) returns, leaves the mode
`VIM_INSERT`, leaves `running` as it is and saves nothing; hence in a running
editor, after any number of iterations of the loop of `run` over any read
outcomes, the mode is still `VIM_INSERT`, the editor still runs and no file has
been written. -/
theorem vim_insert_is_absorbing (envs : Nat → Env) (env : Env) (n : Nat) (s : NexaVim)
    (inp : List (Option Char)) (hm : s.mode = EditorMode.VIM_INSERT) (h : Inv s) :
    (∃ s1 inp1, handleInput env s inp = some (s1, inp1) ∧ s1.mode = EditorMode.VIM_INSERT ∧
      s1.running = s.running ∧ s1.written = s.written ∧ s1.filename = s.filename ∧ Inv s1) ∧
    (s.running = true →
      ∃ s1, run envs n s inp = some s1 ∧ s1.mode = EditorMode.VIM_INSERT ∧
        s1.running = true ∧ s1.written = s.written ∧ s1.filename = s.filename ∧ Inv s1) := by
  have hstep : ∀ (env : Env) (t : NexaVim) (inp : List (Option Char)),
      t.mode = EditorMode.VIM_INSERT → Inv t →
      ∃ t1 inp1, handleInput env t inp = some (t1, inp1) ∧ t1.mode = EditorMode.VIM_INSERT ∧
        t1.running = t.running ∧ t1.written = t.written ∧ t1.filename = t.filename ∧ Inv t1 := by
    intro env t inp hmt ht
    obtain ⟨t1, inp1, e, i1, _, _, _, _, _, hv⟩ :=
      handleInput_edit_good env t inp (Or.inr (Or.inr hmt)) ht
    obtain ⟨v1, v2, v3, v4⟩ := hv hmt
    exact ⟨t1, inp1, e, v1, v2, v3, v4, i1⟩
  refine ⟨hstep env s inp hm h, fun hr => ?_⟩
  obtain ⟨s1, e, p1, p2, p3, p4, p5⟩ := run_invariant envs
    (fun t => t.mode = EditorMode.VIM_INSERT ∧ t.running = true ∧ t.written = s.written ∧
      t.filename = s.filename ∧ Inv t)
    (fun t ht => by rw [render_frame]; exact ht)
    (fun env t inp ht => by
      obtain ⟨t1, inp1, e, q1, q2, q3, q4, q5⟩ := hstep env t inp ht.1 ht.2.2.2.2
      exact ⟨t1, inp1, e, q1, q2.trans ht.2.1, q3.trans ht.2.2.1, q4.trans ht.2.2.2.1, q5⟩)
    n s inp ⟨hm, hr, rfl, rfl, h⟩
  exact ⟨s1, e, p1, p2, p3, p4, p5⟩

/-- C20 at a concrete input: ESC, `S`, `X` and a lone ESC in `VIM_INSERT` on the
state `demo`, three iterations of the loop. -/
theorem vim_insert_is_absorbing_witness :
    ({ demo with mode := EditorMode.VIM_INSERT } : NexaVim).mode = EditorMode.VIM_INSERT ∧
    Inv { demo with mode := EditorMode.VIM_INSERT } ∧
    ({ demo with mode := EditorMode.VIM_INSERT } : NexaVim).running = true ∧
    ∃ s1, run (fun _ => demoEnv) 3 { demo with mode := EditorMode.VIM_INSERT }
        [some 'S', some 'X', some ESC, none] = some s1 ∧
      s1.mode = EditorMode.VIM_INSERT ∧ s1.running = true ∧
      s1.written = ({ demo with mode := EditorMode.VIM_INSERT } : NexaVim).written ∧
      s1.filename = ({ demo with mode := EditorMode.VIM_INSERT } : NexaVim).filename ∧ Inv s1 :=
  ⟨by decide, by decide, by decide,
    (vim_insert_is_absorbing (fun _ => demoEnv) demoEnv 3
      { demo with mode := EditorMode.VIM_INSERT } [some 'S', some 'X', some ESC, none]
      (by decide) (by decide)).2 (by decide)⟩

end NexaVim
